import Mathlib

/-!
Shallow embedding of the scaladoc-linting utilities
(`tools/scaladoc_checker.py`, `tools/scaladoc_indent_fixer.py`,
`check_docs.py`) and proofs about the claims of the specification.

Texts are modelled as lists of characters (`Str`), matching Python's
view of a `str` as a sequence of code points (indices, slicing and
`len` all count code points).  Each Python helper is translated into a
total Lean function; the regular expressions used by the scripts are
small, so each one is translated into an explicit matching function
that follows the backtracking semantics of `re` (greedy quantifiers
try longest first, alternations try leftmost first, `^` without
`re.MULTILINE` anchors a `search` at offset 0).  Inputs are assumed to
use `\n` line terminators and ASCII letters, as all the scripts'
fixtures do (Python's `str.splitlines`, `\w` and `str.lower` are
modelled for that universe).
-/

set_option maxRecDepth 40000

namespace ScaladocTools

/-- Texts: a Python `str` as a list of characters. -/
abbrev Str := List Char

/-- Coercion from a Lean string literal to `Str`. -/
def lit (s : String) : Str := s.data

/-- Whitespace characters recognised by Python's `\s` / `str.strip()`
(ASCII range). -/
def isPySpace (c : Char) : Bool :=
  c = ' ' || c = '\t' || c = '\n' || c = '\r' || c = '\x0b' || c = '\x0c'

/-- Word characters recognised by Python's `\w` (ASCII range). -/
def isWordChar (c : Char) : Bool :=
  c.isAlpha || c.isDigit || c = '_'

/-- Python `str.lstrip()`. -/
def pyLstrip (s : Str) : Str := s.dropWhile isPySpace

/-- Python `str.rstrip()`. -/
def pyRstrip (s : Str) : Str := (s.reverse.dropWhile isPySpace).reverse

/-- Python `str.strip()`. -/
def pyStrip (s : Str) : Str := pyRstrip (pyLstrip s)

/-- Python `str.split()` with no argument: split on whitespace runs,
dropping empty tokens.  The fuel is the text length; every step
consumes at least one character, so this fuel is always enough (fuel
is used instead of well-founded recursion so that proofs can evaluate
the function by kernel reduction). -/
def pyWordsGo : Nat → Str → List Str
  | 0, _ => []
  | _ + 1, [] => []
  | fuel + 1, c :: rest =>
    if isPySpace c then pyWordsGo fuel rest
    else
      (c :: rest.takeWhile (fun a => !isPySpace a)) ::
        pyWordsGo fuel (rest.drop (rest.takeWhile (fun a => !isPySpace a)).length)

/-- Python `str.split()` with no argument. -/
def pyWords (s : Str) : List Str := pyWordsGo s.length s

/-- Python `str.splitlines()` for texts whose only line terminator is
`\n`: splits on newlines and does not yield a final empty line for a
trailing newline. -/
def splitLinesGo : Str → List Str
  | [] => [[]]
  | c :: rest =>
    if c = '\n' then
      [] :: (match rest with
             | [] => []
             | _ :: _ => splitLinesGo rest)
    else
      match splitLinesGo rest with
      | [] => [[c]]
      | l :: ls => (c :: l) :: ls

/-- Python `str.splitlines()` (empty string gives no lines). -/
def splitLines : Str → List Str
  | [] => []
  | s => splitLinesGo s

/-- Python `"\n".join(lines)`. -/
def joinLines (lines : List Str) : Str :=
  List.intercalate (lit ("\n")) lines

/-- Python `s.count(c)` for a single character. -/
def countChar (c : Char) (s : Str) : Nat := s.count c

/-- Leftmost occurrence of `pat` in `s` (index of the first position
where `pat` is a prefix of the rest), as used by Python's `in`,
`str.find` and leftmost regex matches of literal patterns.  For the
empty pattern on the empty string the scripts never ask. -/
def findSub (pat : Str) : Str → Option Nat
  | [] => none
  | c :: rest =>
    if pat.isPrefixOf (c :: rest) then some 0
    else (findSub pat rest).map (· + 1)

/-- Python `pat in s` for a literal pattern. -/
def containsSub (pat s : Str) : Bool := (findSub pat s).isSome

/-- Python `text.rfind(c)` restricted to single characters: index of
the last occurrence, if any. -/
def rfindChar (c : Char) : Str → Option Nat
  | [] => none
  | a :: rest =>
    match rfindChar c rest with
    | some i => some (i + 1)
    | none => if a = c then some 0 else none

/-- Python `str.lower()` (ASCII range). -/
def asciiLower (c : Char) : Char :=
  if 'A' ≤ c ∧ c ≤ 'Z' then Char.ofNat (c.toNat + 32) else c

/-- Python `str.lower()` on a whole text (ASCII range). -/
def lowerStr (s : Str) : Str := s.map asciiLower

/-- Python `str.startswith`. -/
def startsWith (pat s : Str) : Bool := pat.isPrefixOf s

/-- Python `str.endswith`. -/
def endsWith (pat s : Str) : Bool := pat.reverse.isPrefixOf s.reverse

/-- Opening delimiter of a scaladoc block. -/
def opener : Str := lit ("/**")

/-- Closing delimiter of a scaladoc block. -/
def closer : Str := lit ("*/")

/-- All matches of `SCALADOC_RE = /\*\*(.*?)\*/` (with `re.DOTALL`)
from absolute position `p` on: `re.finditer` tries successive start
positions; a match at a position needs `/**` there and a closing `*/`
later, the non-greedy inner group stopping at the first `*/`.  When
the first `/**` of the remaining text has no later `*/` no further
position can match either, so scanning stops.  Each entry is
`(start offset, end offset, inner group)`. -/
def findBlocksGo : Nat → Nat → Str → List (Nat × Nat × Str)
  | 0, _, _ => []
  | fuel + 1, p, s =>
    match findSub opener s with
    | none => []
    | some d =>
      match findSub closer (s.drop (d + 3)) with
      | none => []
      | some d2 =>
        (p + d, p + d + 3 + d2 + 2, (s.drop (d + 3)).take d2) ::
          findBlocksGo fuel (p + d + 3 + d2 + 2) ((s.drop (d + 3)).drop (d2 + 2))

/-- The block scan with its canonical fuel (the text length; every
match consumes at least five characters, so the fuel is always
enough). -/
def findBlocksAux (p : Nat) (s : Str) : List (Nat × Nat × Str) :=
  findBlocksGo s.length p s

/-- All scaladoc blocks of a text, in source order. -/
def findBlocks (text : Str) : List (Nat × Nat × Str) := findBlocksAux 0 text

/-! ### scaladoc_checker.py: declaration location and parsing -/

/-- One step of `get_declaration_after`'s line loop: skip a single
leading blank line, then accumulate lines until a line contains `{`
or `=` or its stripped form ends with `)` or `:` (that line
included). -/
def gdaGo : List Str → Nat → List Str
  | [], _ => []
  | line :: rest, i =>
    if i = 0 ∧ pyStrip line = [] then gdaGo rest (i + 1)
    else
      line ::
        (if line.contains '\x7b' || line.contains '=' ||
            endsWith (lit (")")) (pyStrip line) || endsWith (lit (":")) (pyStrip line)
         then [] else gdaGo rest (i + 1))

/-- `get_declaration_after(text, pos)`: the declaration chunk after a
scaladoc block ending at offset `pos`, and the 1-based line number of
`pos`.  The lookahead is bounded to 40 lines. -/
def getDeclarationAfter (text : Str) (pos : Nat) : Str × Nat :=
  let tail := text.drop pos
  let startLine := countChar '\n' (text.take pos) + 1
  (joinLines (gdaGo ((splitLines tail).take 40) 0), startLine)

/-- Modifier keywords of `DECL_START_RE`'s optional modifier group, in
alternation order (`case` is handled separately as it requires
trailing whitespace).  No keyword is a prefix of another, so at most
one alternative can apply at a given position. -/
def declMods : List Str :=
  [lit ("private"), lit ("protected"), lit ("final"), lit ("override"), lit ("inline"),
   lit ("implicit"), lit ("given"), lit ("export"), lit ("opaque"), lit ("sealed")]

/-- Declaration keywords captured by `DECL_START_RE`, in alternation
order. -/
def declKinds : List Str :=
  [lit ("class"), lit ("trait"), lit ("object"), lit ("def"), lit ("val"), lit ("var")]

/-- Keyword with a trailing `\b` word boundary at the head of `s`. -/
def kindAt (s : Str) : Option Str :=
  declKinds.find? (fun k =>
    k.isPrefixOf s &&
      (match (s.drop k.length).head? with
       | none => true
       | some c => !isWordChar c))

/-- `\s*(class|trait|object|def|val|var)\b` at the head of `s`: the
keyword starts with a non-space letter, so only the maximal whitespace
run can precede it. -/
def kindAfterWs (s : Str) : Option Str := kindAt (s.dropWhile isPySpace)

/-- The optional modifier of `DECL_START_RE`
(`(?:private|...|sealed|case\s+)?`) followed by `\s*` and the keyword
group.  Regex backtracking first tries the modifier present, then
absent. -/
def modThenKind (s : Str) : Option Str :=
  let s' := s.dropWhile isPySpace
  let withMod : Option Str :=
    match declMods.find? (·.isPrefixOf s') with
    | some m => kindAfterWs (s'.drop m.length)
    | none =>
      if (lit ("case")).isPrefixOf s' then
        match s'.drop 4 with
        | c :: rest => if isPySpace c then kindAfterWs (rest.dropWhile isPySpace) else none
        | [] => none
      else none
  withMod <|> kindAfterWs s'

/-- Characters admitted inside the annotation group `@[\w\(\)\s]+` of
`DECL_START_RE`. -/
def isAnnChar (c : Char) : Bool :=
  isWordChar c || c = '(' || c = ')' || isPySpace c

/-- Greedy backtracking over the annotation body length (longest
first, at least one character). -/
def tryAnnFrom : Nat → Str → Option Str
  | 0, _ => none
  | k + 1, rest => modThenKind (rest.drop (k + 1)) <|> tryAnnFrom k rest

/-- `DECL_START_RE.search(line)`: the pattern is anchored by `^`
without `re.MULTILINE`, so a `search` can only match at offset 0.
Returns the captured declaration keyword. -/
def declStartSearch (line : Str) : Option Str :=
  let s1 := line.dropWhile isPySpace
  match s1 with
  | '@' :: rest =>
    tryAnnFrom (rest.takeWhile isAnnChar).length rest <|> modThenKind s1
  | _ => modThenKind s1

/-- `DEF_RE.search(chunk)` (anchored at 0 by `^`): returns the name
group, the optional bracketed type-parameter group (non-greedy, up to
the first `]`) and the optional parenthesised group (up to the first
`)`, parentheses included, as `m.group(3)` keeps them). -/
def defReSearchFrom (kw : Str) (chunk : Str) : Option (Str × Option Str × Option Str) :=
  let s1 := chunk.dropWhile isPySpace
  if kw.isPrefixOf s1 then
    match s1.drop kw.length with
    | c :: _ =>
      if isPySpace c then
        let s3 := (s1.drop kw.length).dropWhile isPySpace
        let name := s3.takeWhile (fun a => !isPySpace a && a ≠ '(' && a ≠ '[')
        if name = [] then none
        else
          let s5 := (s3.drop name.length).dropWhile isPySpace
          let (tps, s6) : Option Str × Str :=
            match s5 with
            | '[' :: r =>
              match findSub (lit ("]")) r with
              | some j => (some (r.take j), r.drop (j + 1))
              | none => (none, s5)
            | _ => (none, s5)
          let s7 := s6.dropWhile isPySpace
          let ps : Option Str :=
            match s7 with
            | '(' :: r =>
              match findSub (lit (")")) r with
              | some j => some ('(' :: (r.take j ++ [')']))
              | none => none
            | _ => none
          some (name, tps, ps)
      else none
    | [] => none
  else none

/-- `DEF_RE.search`. -/
def defReSearch (chunk : Str) : Option (Str × Option Str × Option Str) :=
  defReSearchFrom (lit ("def")) chunk

/-- `CLASS_RE.search`: same shape as `DEF_RE` with keyword
`class|trait` (alternation order: `class` first). -/
def classReSearch (chunk : Str) : Option (Str × Option Str × Option Str) :=
  defReSearchFrom (lit ("class")) chunk <|> defReSearchFrom (lit ("trait")) chunk

/-- Characters admitted by the group of the return-type pattern
`:\s*([^=\{\n]+)`. -/
def retClassChar (c : Char) : Bool := c ≠ '=' && c ≠ '\x7b' && c ≠ '\n'

/-- Backtracking after a candidate colon: `\s*` tries the longest
whitespace run first, then shorter ones; the group then takes the
maximal run of characters other than `=`, `{` and newline (note that
spaces and tabs belong to both classes, so a shorter `\s*` can
succeed when the first non-space character is `=` or `{`). -/
def retTryWs : Nat → Str → Option Str
  | k, rest =>
    match rest.drop k with
    | c :: _ =>
      if retClassChar c then some ((rest.drop k).takeWhile retClassChar)
      else match k with
           | 0 => none
           | k' + 1 => retTryWs k' rest
    | [] =>
      match k with
      | 0 => none
      | k' + 1 => retTryWs k' rest

/-- `re.search(r":\s*([^=\{\n]+)", chunk)`: leftmost colon from which
the rest of the pattern matches; returns the captured group. -/
def retSearchGo : Str → Option Str
  | [] => none
  | ':' :: rest => retTryWs (rest.takeWhile isPySpace).length rest <|> retSearchGo rest
  | _ :: rest => retSearchGo rest

/-- Python `re.split(r"\s+(?:=|\{)", ret)[0]`: the prefix before the
first position where a whitespace run followed by `=` or `{` starts.
Since the split pattern needs at least one whitespace character and
then `=` or `{`, a position starts a match exactly when it holds a
whitespace character whose maximal whitespace run is followed by `=`
or `{`. -/
def retCleanGo : Str → Str
  | [] => []
  | c :: rest =>
    if isPySpace c &&
        (match ((c :: rest).dropWhile isPySpace).head? with
         | some '=' => true
         | some '\x7b' => true
         | _ => false)
    then []
    else c :: retCleanGo rest

/-- Cleanup applied to the captured return type:
`re.split(r"\s+(?:=|\{)", ret)[0].strip()`. -/
def retCleanup (ret : Str) : Str := pyStrip (retCleanGo ret)

/-- One type-parameter entry:
`tp.strip().split(":")[0].split("=")[0].strip()`. -/
def tparamClean (tp : Str) : Str :=
  pyStrip (((pyStrip tp).takeWhile (· ≠ ':')).takeWhile (· ≠ '='))

/-- Python `tps.split(",")` (plain split, keeping empty parts). -/
def splitOnComma (s : Str) : List Str := s.splitOn ','

/-- `re.findall(r"\(([^)]*)\)", parens)`: the contents of each
parenthesis group, scanning left to right. -/
def parenGroupsGo : Nat → Str → List Str
  | 0, _ => []
  | _ + 1, [] => []
  | fuel + 1, '(' :: rest =>
    (match findSub (lit (")")) rest with
     | some j => rest.take j :: parenGroupsGo fuel (rest.drop (j + 1))
     | none => [])
  | fuel + 1, _ :: rest => parenGroupsGo fuel rest

/-- `re.findall(r"\(([^)]*)\)", parens)` with its canonical fuel. -/
def parenGroups (s : Str) : List Str := parenGroupsGo s.length s

/-- `split_by_commas_top_level`: split on commas, ignoring commas
nested inside brackets, with the bracket depth clamped at 0; the last
accumulated part is stripped and dropped when empty, earlier parts are
kept verbatim. -/
def sbctlGo : Str → Str → Nat → List Str → List Str
  | [], cur, _, acc =>
    (if pyStrip cur.reverse = [] then acc else pyStrip cur.reverse :: acc).reverse
  | c :: rest, cur, depth, acc =>
    if c = '(' || c = '[' || c = '\x7b' then sbctlGo rest (c :: cur) (depth + 1) acc
    else if c = ')' || c = ']' || c = '\x7d' then sbctlGo rest (c :: cur) (depth - 1) acc
    else if c = ',' && depth = 0 then sbctlGo rest [] depth (cur.reverse :: acc)
    else sbctlGo rest (c :: cur) depth acc

/-- `split_by_commas_top_level(s)`. -/
def splitByCommasTopLevel (s : Str) : List Str := sbctlGo s [] 0 []

/-- Name extraction for a single parameter entry, after stripping:
`re.match(r"([A-Za-z0-9_]+)\s*:", p)` captures the leading identifier
when a top-level colon follows; otherwise the first
whitespace-delimited token, skipping a leading `implicit`/`using` and
taking the next token instead (nothing when there is none). -/
def paramName (p : Str) : Option Str :=
  let p' := pyStrip p
  if p' = [] then none
  else
    let w := p'.takeWhile isWordChar
    if w ≠ [] ∧ ((p'.drop w.length).dropWhile isPySpace).head? = some ':' then some w
    else
      match pyWords p' with
      | [] => none
      | tok :: rest =>
        if tok = lit ("implicit") ∨ tok = lit ("using") then rest.head?
        else some tok

/-- `extract_param_names_from_parens`. -/
def extractParamNamesFromParens (parens : Str) : List Str :=
  if parens = [] then []
  else (parenGroups parens).flatMap (fun g => (splitByCommasTopLevel g).filterMap paramName)

/-- `re.search(r"\b(val|var)\s+([A-Za-z0-9_]+)", chunk)` (and the
analogous `object` search): leftmost keyword occurrence at a word
boundary followed by whitespace and an identifier; returns the
identifier. -/
def wordKeywordNameSearch (kws : List Str) (s : Str) (prevIsWord : Bool) : Option Str :=
  match s with
  | [] => none
  | c :: rest =>
    let here : Option Str :=
      if prevIsWord then none
      else
        kws.firstM (fun kw =>
          if kw.isPrefixOf (c :: rest) then
            match (c :: rest).drop kw.length with
            | a :: r2 =>
              if isPySpace a then
                let nm := ((a :: r2).dropWhile isPySpace).takeWhile isWordChar
                if nm = [] then none else some nm
              else none
            | [] => none
          else none)
    here <|> wordKeywordNameSearch kws rest (isWordChar c)

/-- The parsed declaration record produced by `parse_declaration`. -/
structure Decl where
  kind : Str
  name : Str
  tparams : List Str
  params : List Str
  ret : Option Str
deriving DecidableEq, Repr

/-- The degenerate record returned when no declaration keyword is
recognised. -/
def unknownDecl : Decl :=
  { kind := lit ("unknown"), name := [], tparams := [], params := [], ret := none }

/-- First line of `chunk.strip()`, or the empty string when the
stripped chunk is empty. -/
def firstLineOfChunk (chunk : Str) : Str :=
  if pyStrip chunk = [] then [] else (splitLines (pyStrip chunk)).headD []

/-- Type-parameter list extraction shared by the `def` and
`class`/`trait` branches: `group(2) or ""`, split on commas when
non-empty, each entry cleaned. -/
def tparamsOf (tps : Option Str) : List Str :=
  match tps.getD [] with
  | [] => []
  | t => (splitOnComma t).map tparamClean

/-- `parse_declaration(chunk)`. -/
def parseDeclaration (chunk : Str) : Decl :=
  match (declStartSearch (firstLineOfChunk chunk)).orElse
      (fun _ => declStartSearch chunk) with
  | none => unknownDecl
  | some kind =>
    if kind = lit ("def") then
      let base : Str × List Str × List Str :=
        match defReSearch chunk with
        | some (n, t, p) => (n, tparamsOf t, extractParamNamesFromParens (p.getD []))
        | none => ([], [], [])
      let ret : Option Str :=
        (retSearchGo chunk).map (fun g => retCleanup (pyStrip g))
      { kind := kind, name := base.1, tparams := base.2.1, params := base.2.2, ret := ret }
    else if kind = lit ("class") ∨ kind = lit ("trait") then
      match classReSearch chunk with
      | some (n, t, p) =>
        { kind := kind, name := n, tparams := tparamsOf t,
          params := extractParamNamesFromParens (p.getD []), ret := none }
      | none => { kind := kind, name := [], tparams := [], params := [], ret := none }
    else if kind = lit ("val") ∨ kind = lit ("var") then
      { kind := kind,
        name := (wordKeywordNameSearch [lit ("val"), lit ("var")] chunk false).getD [],
        tparams := [], params := [], ret := none }
    else if kind = lit ("object") then
      { kind := kind,
        name := (wordKeywordNameSearch [lit ("object")] chunk false).getD [],
        tparams := [], params := [], ret := none }
    else { kind := kind, name := [], tparams := [], params := [], ret := none }

/-! ### scaladoc_checker.py: tag extraction and reconciliation -/

/-- One attempted match of `TAG_RE = ^\s*\*\s*@(\w+)\s*(\w+)?` (with
`re.MULTILINE`) at a line-start position: returns the tag name, the
optional second group (empty when absent), whether the last consumed
character was a newline (the trailing `\s*` stays greedy when the
optional group is absent and may swallow line breaks), and the rest of
the text after the match. -/
def tagMatchAt (s : Str) : Option (Str × Str × Bool × Str) :=
  let r1 := s.dropWhile isPySpace
  match r1 with
  | '*' :: r2 =>
    (match r2.dropWhile isPySpace with
     | '@' :: r3 =>
       let tag := r3.takeWhile isWordChar
       if tag = [] then none
       else
         let r4 := r3.drop tag.length
         let ws3 := r4.takeWhile isPySpace
         let r5 := r4.drop ws3.length
         let nm := r5.takeWhile isWordChar
         if nm = [] then some (tag, [], ws3.getLast? = some '\n', r5)
         else some (tag, nm, false, r5.drop nm.length)
     | _ => none)
  | _ => none

/-- `TAG_RE.finditer(block)`: scan all positions left to right; `^`
with `re.MULTILINE` matches at offset 0 and right after every newline;
after a match scanning resumes at its end.  The fuel argument is the
length of the text; every step consumes at least one character, so
this fuel is always sufficient. -/
def tagScanGo : Nat → Str → Bool → List (Str × Str)
  | 0, _, _ => []
  | _ + 1, [], _ => []
  | fuel + 1, c :: t, atStart =>
    if atStart then
      match tagMatchAt (c :: t) with
      | some (tag, nm, endNl, rest) => (tag, nm) :: tagScanGo fuel rest endNl
      | none => tagScanGo fuel t (c = '\n')
    else tagScanGo fuel t (c = '\n')

/-- All `(tag, name)` pairs found by `TAG_RE.finditer`. -/
def tagFinditer (block : Str) : List (Str × Str) :=
  tagScanGo block.length block true

/-- The tag record built by `extract_tags`. -/
structure Tags where
  param : List Str
  tparam : List Str
  ret : List Str
deriving DecidableEq, Repr

/-- `extract_tags(block)`:`@param`/`@tparam` keep their name operand,
`@return` stores an empty-string entry. -/
def extractTags (block : Str) : Tags :=
  (tagFinditer block).foldl
    (fun tg p =>
      if p.1 = lit ("param") then { tg with param := tg.param ++ [p.2] }
      else if p.1 = lit ("tparam") then { tg with tparam := tg.tparam ++ [p.2] }
      else if p.1 = lit ("return") then { tg with ret := tg.ret ++ [[]] }
      else tg)
    { param := [], tparam := [], ret := [] }

/-- Python `", ".join(xs)`. -/
def joinComma (xs : List Str) : Str := List.intercalate (lit (", ")) xs

/-- Declared type parameters considered by the reconciler: the parsed
ones with empty names dropped. -/
def declaredTparams (decl : Decl) : List Str := decl.tparams.filter (· ≠ [])

/-- Declared type parameters with no `@tparam` documentation. -/
def missingTparam (decl : Decl) (tags : Tags) : List Str :=
  (declaredTparams decl).filter (fun t => !tags.tparam.contains t)

/-- Documented `@tparam` names not among the declared ones. -/
def extraTparam (decl : Decl) (tags : Tags) : List Str :=
  tags.tparam.filter (fun t => !(declaredTparams decl).contains t)

/-- Declared value parameters with no `@param` documentation. -/
def missingParam (decl : Decl) (tags : Tags) : List Str :=
  decl.params.filter (fun p => !tags.param.contains p)

/-- Documented `@param` names not among the declared ones. -/
def extraParam (decl : Decl) (tags : Tags) : List Str :=
  tags.param.filter (fun p => !decl.params.contains p)

/-- Whether the block documents a return value. -/
def documentedReturn (tags : Tags) : Bool := tags.ret.length > 0

/-- The issue messages for the `@return` policy in `analyze_file`: for
a `def` with a truthy extracted return type, a `Unit`-prefixed type
must not carry `@return` and any other type must; with no (or an
empty) extracted type the check is skipped. -/
def returnIssues (decl : Decl) (tags : Tags) : List Str :=
  if decl.kind = lit ("def") then
    match decl.ret with
    | some r =>
      if r ≠ [] then
        if (lit ("Unit")).isPrefixOf (pyStrip r) then
          if documentedReturn tags then [lit ("@return present but return type is Unit")] else []
        else
          if !documentedReturn tags then [lit ("Missing @return for non-Unit return type")] else []
      else []
    | none => []
  else []

/-- The full issue list computed for one block by `analyze_file`
(lines 231-263 of `scaladoc_checker.py`), in emission order. -/
def issuesFor (decl : Decl) (tags : Tags) : List Str :=
  (if missingTparam decl tags ≠ [] then
     [lit ("Missing @tparam for: ") ++ joinComma (missingTparam decl tags)] else []) ++
  (if extraTparam decl tags ≠ [] then
     [lit ("@tparam refers to unknown type params: ") ++ joinComma (extraTparam decl tags)] else []) ++
  (if missingParam decl tags ≠ [] then
     [lit ("Missing @param for: ") ++ joinComma (missingParam decl tags)] else []) ++
  (if extraParam decl tags ≠ [] then
     [lit ("@param refers to unknown params: ") ++ joinComma (extraParam decl tags)] else []) ++
  returnIssues decl tags

/-! ### scaladoc_checker.py: analyze_file and the fix path -/

/-- The placeholder tag lines inserted under `--fix` (stored without
the leading star). -/
def insertLinesFor (decl : Decl) (tags : Tags) : List Str :=
  ((missingTparam decl tags).map
    (fun tp => lit ("@tparam ") ++ tp ++ lit (" TODO FILL IN TPARAM"))) ++
  ((missingParam decl tags).map
    (fun p => lit ("@param ") ++ p ++ lit (" TODO FILL IN PARAM"))) ++
  (if (decl.kind == lit ("def")) &&
      (match decl.ret with
       | some r => !r.isEmpty && !documentedReturn tags && !(lit ("Unit")).isPrefixOf (pyStrip r)
       | none => false)
   then [lit ("@return TODO FILL IN RETURN")] else [])

/-- `re.match(r"^\s*\*(.*)$", l)`: when the first non-whitespace
character of a line is a star, the text after that star. -/
def starMatch (l : Str) : Option Str :=
  match l.dropWhile isPySpace with
  | x :: rest => if x = '*' then some rest else none
  | [] => none

/-- `re.match(r"^(\s*)\*", l)`: the whitespace prefix of a star
line. -/
def starPre (l : Str) : Option Str :=
  match l.dropWhile isPySpace with
  | x :: _ => if x = '*' then some (l.takeWhile isPySpace) else none
  | [] => none

/-- Leading whitespace of the text between the last newline before
offset `start` and `start` (the comment opener's own line prefix,
`re.match(r"^\s*", line_prefix)`). -/
def leadingWsAt (text : Str) (start : Nat) : Str :=
  let pre := text.take start
  let linePre :=
    match rfindChar '\n' pre with
    | none => pre
    | some i => pre.drop (i + 1)
  linePre.takeWhile isPySpace

/-- The rebuilt comment block of the checker's fix path: original
lines are preserved (text after the star for star lines, stripped
content for opener-line text), inserted tag lines follow, then the
closing delimiter. -/
def fixedBlockParts (leadingWs : Str) (block : Str) (ins : List Str) : List Str :=
  (lit ("/**")) ::
    ((splitLines block).map (fun l =>
      match starMatch l with
      | some suffix =>
        if suffix = [] then leadingWs ++ lit (" *") else leadingWs ++ lit (" *") ++ suffix
      | none => leadingWs ++ lit (" * ") ++ pyStrip l)) ++
    (ins.map (fun ln => leadingWs ++ lit (" * ") ++ ln)) ++
    [leadingWs ++ lit (" */")]

/-- One per-block result record of `analyze_file`. -/
structure BlockResult where
  line : Nat
  decl : Decl
  tags : Tags
  issues : List Str
  excerpt : List Str
deriving DecidableEq, Repr

/-- The per-block result, computed from the original text only. -/
def blockResultFor (text : Str) (b : Nat × Nat × Str) : BlockResult :=
  let tags := extractTags b.2.2
  let cl := getDeclarationAfter text b.2.1
  let decl := parseDeclaration cl.1
  { line := cl.2, decl := decl, tags := tags, issues := issuesFor decl tags,
    excerpt := (splitLines (pyStrip b.2.2)).take 3 }

/-- Accumulator of the checker's block loop: the (possibly rewritten)
running text, the cumulative length offset, and the result list. -/
structure ChkAcc where
  newText : Str
  offset : Int
  results : List BlockResult
deriving Repr

/-- One iteration of the block loop of the checker's `analyze_file`:
compute the result from the original text, and under `fix` splice the
rebuilt block into the running buffer at the offset-shifted span. -/
def chkStep (text : Str) (fix : Bool) (acc : ChkAcc) (b : Nat × Nat × Str) : ChkAcc :=
  let res := blockResultFor text b
  let ins := insertLinesFor res.decl res.tags
  let acc' :=
    if fix ∧ ins ≠ [] then
      let newFull := joinLines (fixedBlockParts (leadingWsAt text b.1) b.2.2 ins)
      { acc with
        newText :=
          acc.newText.take ((b.1 + acc.offset).toNat) ++ newFull ++
            acc.newText.drop ((b.2.1 + acc.offset).toNat),
        offset := acc.offset + newFull.length - (b.2.1 - b.1 : Nat) }
    else acc
  { acc' with results := acc.results ++ [res] }

/-- `analyze_file(path, fix)` of the checker, over the file's text:
returns the written-back text and the result list. -/
def analyzeFileChecker (text : Str) (fix : Bool) : Str × List BlockResult :=
  let fin := (findBlocks text).foldl (chkStep text fix) ⟨text, 0, []⟩
  (fin.newText, fin.results)

/-- Total number of issue messages over a list of file texts, as
counted by `summarize_reports`. -/
def checkerTotalIssues (files : List Str) (fix : Bool) : Nat :=
  (files.map (fun f =>
    (((analyzeFileChecker f fix).2).map (fun r => r.issues.length)).sum)).sum

/-- Exit code of the checker's `main`: 2 when the folder does not
exist, otherwise 0 exactly when no issue was counted (`--fix` plays no
role in this decision). -/
def checkerMainExit (folderExists : Bool) (files : List Str) (fix : Bool) : Nat :=
  if !folderExists then 2
  else if checkerTotalIssues files fix = 0 then 0 else 1

/-! ### check_docs.py: visibility classification and trackers -/

/-- `re.sub(r'q[^q]*q', '', s)` for a quote character `q`: remove each
leftmost pair of quotes together with the enclosed text; an unpaired
final quote stays. -/
def removeQuotedGo (q : Char) : Nat → Str → Str
  | 0, _ => []
  | _ + 1, [] => []
  | fuel + 1, c :: rest =>
    if c = q then
      match findSub [q] rest with
      | some j => removeQuotedGo q fuel (rest.drop (j + 1))
      | none => c :: rest
    else c :: removeQuotedGo q fuel rest

/-- `re.sub(r'q[^q]*q', '', s)` with its canonical fuel. -/
def removeQuoted (q : Char) (s : Str) : Str := removeQuotedGo q s.length s

/-- Word boundary after a keyword occurrence: the following character,
if any, is not a word character. -/
def boundaryAfter (kw s : Str) : Bool :=
  match (s.drop kw.length).head? with
  | none => true
  | some c => !isWordChar c

/-- `re.search(r'\bW\b', s)` for a literal word `W`: some occurrence
of `W` preceded and followed by a word boundary. -/
def searchWord (w : Str) : Str → Bool → Bool
  | [], _ => false
  | c :: rest, prevW =>
    (!prevW && w.isPrefixOf (c :: rest) && boundaryAfter w (c :: rest)) ||
      searchWord w rest (isWordChar c)

/-- `re.search(r'\bprotected\s*\[', s)`: an occurrence of `protected`
at a word boundary whose following whitespace run is followed by an
opening bracket. -/
def searchProtectedBracket : Str → Bool → Bool
  | [], _ => false
  | c :: rest, prevW =>
    (!prevW && (lit ("protected")).isPrefixOf (c :: rest) &&
      (((c :: rest).drop 9).dropWhile isPySpace).head? = some '[') ||
      searchProtectedBracket rest (isWordChar c)

/-- `get_visibility(line)`: string and character literals are masked
first, then `private`, bracketed `protected` and bare `protected` are
tested in that order. -/
def getVisibility (line : Str) : Str :=
  let c2 := removeQuoted (Char.ofNat 39) (removeQuoted '"' line)
  if searchWord (lit ("private")) c2 false then lit ("private")
  else if searchProtectedBracket c2 false then lit ("package-private")
  else if searchWord (lit ("protected")) c2 false then lit ("protected")
  else lit ("public")

/-- `should_check_docs(visibility)`. -/
def shouldCheckDocs (v : Str) : Bool :=
  v = lit ("public") || v = lit ("protected")

/-- The visibility tracker's stack, with the most recent frame at the
head; a frame is an indentation column paired with a visibility. -/
abbrev VisStack := List (Nat × Str)

/-- Indentation of a line: `len(line) - len(line.lstrip())`. -/
def indentOf (line : Str) : Nat := line.length - (pyLstrip line).length

/-- Pop every frame whose recorded column is at least the given
indentation (`VisibilityTracker.update_for_line`'s loop). -/
def popWhileGE (indent : Nat) : VisStack → VisStack
  | [] => []
  | (i, v) :: rest => if indent ≤ i then popWhileGE indent rest else (i, v) :: rest

/-- `VisibilityTracker.update_for_line`: blank lines leave the stack
unchanged, otherwise frames at a column ≥ the line's indentation are
popped. -/
def updateForLine (stack : VisStack) (line : Str) : VisStack :=
  if pyStrip line = [] then stack else popWhileGE (indentOf line) stack

/-- `VisibilityTracker.is_in_private_container`. -/
def isInPrivateContainer (stack : VisStack) : Bool :=
  stack.any (fun f => f.2 = lit ("private") || f.2 = lit ("package-private"))

/-- `re.sub(r'//.*$', '', s)`: drop everything from the first `//`. -/
def removeLineComment (s : Str) : Str :=
  match findSub (lit ("//")) s with
  | some i => s.take i
  | none => s

/-- `BraceTracker.process_line`: count braces after masking literals
and line comments; a method-definition line that opens a brace enters
a method body; when the depth falls to 0 it is clamped and the
method-body flag cleared. -/
def braceProcessLine (depth : Nat) (inMB : Bool) (line : Str) (isMethodDef : Bool) :
    Nat × Bool :=
  let cleaned :=
    removeLineComment (removeQuoted (Char.ofNat 39) (removeQuoted '"' (pyStrip line)))
  let ob := countChar '\x7b' cleaned
  let cb := countChar '\x7d' cleaned
  let inMB1 := if isMethodDef && ob > 0 then true else inMB
  let d2 : Int := (depth : Int) + ob - cb
  if d2 ≤ 0 then (0, false) else (d2.toNat, inMB1)

/-! ### check_docs.py: declaration patterns -/

/-- The optional visibility-modifier group
`(?:(?:private|protected)(?:\[[^\]]*\])?\s+)?` of the check_docs
patterns: candidate remainders in backtracking preference order
(modifier present — with the bracket preferred present — before
modifier absent).  `private` and `protected` cannot both match, and
after the keyword (and optional bracket) at least one whitespace
character is required. -/
def visModCandidates (s : Str) : List Str :=
  let kwRest : Option Str :=
    if (lit ("private")).isPrefixOf s then some (s.drop 7)
    else if (lit ("protected")).isPrefixOf s then some (s.drop 9)
    else none
  (match kwRest with
   | none => []
   | some r =>
     let brCands : List Str :=
       (match r with
        | '[' :: rr =>
          match findSub (lit ("]")) rr with
          | some j => [rr.drop (j + 1)]
          | none => []
        | _ => []) ++ [r]
     brCands.filterMap (fun b =>
       match b with
       | c :: _ => if isPySpace c then some (b.dropWhile isPySpace) else none
       | [] => none)) ++ [s]

/-- A required keyword followed by `\s+`: the remainder after the
maximal whitespace run, when the keyword is present and followed by at
least one whitespace character. -/
def kwThenWs (kw : Str) (s : Str) : Option Str :=
  if kw.isPrefixOf s then
    match s.drop kw.length with
    | c :: rest => if isPySpace c then some ((c :: rest).dropWhile isPySpace) else none
    | [] => none
  else none

/-- The `(?:sealed\s+|final\s+|abstract\s+)*` loop followed by
`(class|trait|object|enum)\s+(\w+)`, with fuel for the loop (the
modifiers are mutually non-prefixing, so at most one alternative
matches per iteration; on continuation failure the loop backtracks to
fewer iterations). -/
def classKindNameGo : Nat → Str → Option (Str × Str)
  | _, s =>
    let keywordName : Option (Str × Str) :=
      [lit ("class"), lit ("trait"), lit ("object"), lit ("enum")].firstM (fun k =>
        match kwThenWs k s with
        | some r =>
          let nm := r.takeWhile isWordChar
          if nm = [] then none else some (k, nm)
        | none => none)
    keywordName
/-- The class pattern's modifier loop with explicit fuel (each
iteration consumes at least one character, so the text length is
enough fuel). -/
def classModsLoop : Nat → Str → Option (Str × Str)
  | 0, s => classKindNameGo 0 s
  | fuel + 1, s =>
    match ([lit ("sealed"), lit ("final"), lit ("abstract")].firstM (fun m => kwThenWs m s)) with
    | some r => (classModsLoop fuel r) <|> classKindNameGo 0 s
    | none => classKindNameGo 0 s

/-- `class_pattern.match(line)`: kind and name of a
class/trait/object/enum declaration line. -/
def classPatternMatch (line : Str) : Option (Str × Str) :=
  (visModCandidates (line.dropWhile isPySpace)).firstM (fun cand =>
    classModsLoop cand.length cand)

/-- The name group `(\w+|\W+)` of `def_pattern` followed by
`\s*[\[\(:]`: a word run is maximal and admits no backtracking; a
non-word run backtracks from the longest length down. -/
def defNameFrom (rest : Str) : Option Str :=
  let w := rest.takeWhile isWordChar
  if w ≠ [] then
    if (match ((rest.drop w.length).dropWhile isPySpace).head? with
        | some '[' => true
        | some '(' => true
        | some ':' => true
        | _ => false)
    then some w else none
  else
    let rec tryLen : Nat → Option Str
      | 0 => none
      | k + 1 =>
        (if (match ((rest.drop (k + 1)).dropWhile isPySpace).head? with
             | some '[' => true
             | some '(' => true
             | some ':' => true
             | _ => false)
         then some (rest.take (k + 1)) else none) <|> tryLen k
    tryLen (rest.takeWhile (fun c => !isWordChar c)).length

/-- `def_pattern.match(line)`: the name of a method-definition
line. -/
def defPatternMatch (line : Str) : Option Str :=
  (visModCandidates (line.dropWhile isPySpace)).firstM (fun cand =>
    let cands2 : List Str :=
      (match kwThenWs (lit ("override")) cand with
       | some r => [r]
       | none => []) ++ [cand]
    cands2.firstM (fun c2 =>
      match kwThenWs (lit ("def")) c2 with
      | some r => defNameFrom r
      | none => none))

/-- `val_pattern.match(line)` / `var_pattern.match(line)`: the name of
a field-definition line (`kw\s+(\w+)\s*:`). -/
def valVarPatternMatch (kw : Str) (line : Str) : Option Str :=
  (visModCandidates (line.dropWhile isPySpace)).firstM (fun cand =>
    match kwThenWs kw cand with
    | some r =>
      let nm := r.takeWhile isWordChar
      if nm = [] then none
      else if ((r.drop nm.length).dropWhile isPySpace).head? = some ':' then some nm
      else none
    | none => none)

/-! ### check_docs.py: is_documented and analyze_file -/

/-- The backwards scan of `is_documented` over a `*/`-terminated
comment: from line `j` downwards, stop at the first line containing
`/**` (scaladoc found) or `/*` (plain comment); report the stopping
index, or `none` when the scan ran past the first line. -/
def commentScan (lines : List Str) : Nat → Bool × Option Nat
  | 0 =>
    if containsSub (lit ("/**")) (lines.getD 0 []) then (true, some 0)
    else if containsSub (lit ("/*")) (lines.getD 0 []) then (false, some 0)
    else (false, none)
  | j + 1 =>
    if containsSub (lit ("/**")) (lines.getD (j + 1) []) then (true, some (j + 1))
    else if containsSub (lit ("/*")) (lines.getD (j + 1) []) then (false, some (j + 1))
    else commentScan lines j

/-- The main backwards loop of `is_documented`, with fuel (the loop
index strictly decreases, so `line_idx` steps suffice). -/
def isDocGo (lines : List Str) : Nat → Nat → Bool
  | 0, _ => false
  | fuel + 1, i =>
    let line := pyStrip (lines.getD i [])
    if line = [] ∨ (lit ("//")).isPrefixOf line ∨ (lit ("@")).isPrefixOf line then
      match i with
      | 0 => false
      | i' + 1 => isDocGo lines fuel i'
    else if endsWith (lit ("*/")) line then
      match commentScan lines i with
      | (true, _) => true
      | (false, some 0) => false
      | (false, some (j + 1)) => isDocGo lines fuel j
      | (false, none) => false
    else false

/-- `is_documented(lines, line_idx)`. -/
def isDocumented (lines : List Str) (lineIdx : Nat) : Bool :=
  match lineIdx with
  | 0 => false
  | i + 1 => isDocGo lines (i + 1) i

/-- One undocumented-element record of check_docs' `analyze_file`. -/
structure DocEntry where
  line : Nat
  kind : Str
  name : Str
  content : Str
deriving DecidableEq, Repr

/-- The scan state of check_docs' `analyze_file`. -/
structure DocsState where
  inML : Bool
  stack : VisStack
  braceDepth : Nat
  inMethodBody : Bool
  undoc : List DocEntry
deriving Repr

/-- One line of check_docs' `analyze_file`: comment tracking, then the
class / def / val-var branches with their visibility and
documentation checks. -/
def docsStep (lines : List Str) (i : Nat) (st : DocsState) : DocsState :=
  let line := lines.getD i []
  let stripped := pyStrip line
  let stack1 := updateForLine st.stack line
  let inML1 :=
    if containsSub (lit ("/*")) stripped && !(lit ("//")).isPrefixOf stripped then true
    else st.inML
  if containsSub (lit ("*/")) stripped then
    { st with stack := stack1, inML := false }
  else if inML1 then
    { st with stack := stack1, inML := inML1 }
  else if stripped = [] || (lit ("//")).isPrefixOf stripped then
    let bm := braceProcessLine st.braceDepth st.inMethodBody line false
    { st with stack := stack1, inML := inML1, braceDepth := bm.1, inMethodBody := bm.2 }
  else
    match classPatternMatch line with
    | some kn =>
      let vis := getVisibility line
      let stack2 := (indentOf line, vis) :: stack1
      let bm := braceProcessLine st.braceDepth st.inMethodBody line false
      let undoc1 :=
        if shouldCheckDocs vis && !isInPrivateContainer stack2 &&
            !isDocumented lines i then
          st.undoc ++ [{ line := i + 1, kind := kn.1, name := kn.2,
                         content := stripped.take 80 }]
        else st.undoc
      { inML := inML1, stack := stack2, braceDepth := bm.1, inMethodBody := bm.2,
        undoc := undoc1 }
    | none =>
      match defPatternMatch line with
      | some nm =>
        let vis := getVisibility line
        let bm := braceProcessLine st.braceDepth st.inMethodBody line true
        let undoc1 :=
          if isInPrivateContainer stack1 then st.undoc
          else if shouldCheckDocs vis && !isDocumented lines i then
            st.undoc ++ [{ line := i + 1, kind := lit ("def"), name := nm,
                           content := stripped.take 80 }]
          else st.undoc
        { inML := inML1, stack := stack1, braceDepth := bm.1, inMethodBody := bm.2,
          undoc := undoc1 }
      | none =>
        let bm := braceProcessLine st.braceDepth st.inMethodBody line false
        let base : DocsState :=
          { inML := inML1, stack := stack1, braceDepth := bm.1, inMethodBody := bm.2,
            undoc := st.undoc }
        if bm.2 then base
        else if isInPrivateContainer stack1 then base
        else if !shouldCheckDocs (getVisibility line) then base
        else
          let u1 :=
            match valVarPatternMatch (lit ("val")) line with
            | some nm =>
              if !isDocumented lines i then
                base.undoc ++ [{ line := i + 1, kind := lit ("val"), name := nm,
                                 content := stripped.take 80 }]
              else base.undoc
            | none => base.undoc
          let u2 :=
            match valVarPatternMatch (lit ("var")) line with
            | some nm =>
              if !isDocumented lines i then
                u1 ++ [{ line := i + 1, kind := lit ("var"), name := nm,
                         content := stripped.take 80 }]
              else u1
            | none => u1
          { base with undoc := u2 }

/-- `analyze_file` of check_docs over a file given as its list of
lines (without trailing newlines, which none of the checks read). -/
def analyzeDocsFile (lines : List Str) : List DocEntry :=
  ((List.range lines.length).foldl (fun st i => docsStep lines i st)
    { inML := false, stack := [], braceDepth := 0, inMethodBody := false,
      undoc := [] }).undoc

/-! ### scaladoc_indent_fixer.py: analyze_and_fix_text -/

/-- Detection of a trailing blank continuation line: only the last
inner line is examined (the `reversed` loop of the source breaks on
its first iteration); a star line counts when its after-star text is
blank, any other line when it is blank itself. -/
def trailingStarBlank (innerLines : List Str) : Bool :=
  match innerLines.getLast? with
  | none => false
  | some lastLine =>
    match starMatch lastLine with
    | some rest => pyStrip rest = []
    | none => pyStrip lastLine = []

/-- The whitespace prefixes of the star lines of a block
(`re.match(r"^(\s*)\*", l)` over the inner lines). -/
def starPres (innerLines : List Str) : List Str :=
  innerLines.filterMap starPre

/-- `emit_preserve`: keep the content spacing after the star, adding a
separating space when the content does not start with one. -/
def emitPreserve (ws c : Str) : Str :=
  if c.head? = some ' ' then ws ++ lit (" *") ++ c else ws ++ lit (" * ") ++ c

/-- `emit_normalized`: collapse the leading spaces of the content to a
single one (or emit a bare star line for blank content). -/
def emitNormalized (ws c : Str) : Str :=
  if pyLstrip c = [] then ws ++ lit (" *") else ws ++ lit (" * ") ++ pyLstrip c

/-- The line loop of the fixer's block rebuild: triple-brace code
fences and `<pre>` blocks toggle preservation; other lines are
preserved when their content starts with a space and normalized
otherwise. -/
def normLoop (ws : Str) : List Str → Bool → Bool → List Str
  | [], _, _ => []
  | l :: rest, inCode, inPre =>
    let content := match starMatch l with | some r => r | none => l
    let sf := pyLstrip content
    if !inCode && (lit ("\x7b\x7b\x7b")).isPrefixOf sf then
      emitPreserve ws content :: normLoop ws rest true inPre
    else if inCode then
      emitPreserve ws content ::
        normLoop ws rest (!containsSub (lit ("\x7d\x7d\x7d")) content) inPre
    else if !inPre && (lit ("<pre>")).isPrefixOf (lowerStr sf) then
      emitPreserve ws content :: normLoop ws rest inCode true
    else if inPre then
      emitPreserve ws content ::
        normLoop ws rest inCode (!containsSub (lit ("</pre>")) (lowerStr sf))
    else if content.head? = some ' ' then
      emitPreserve ws content :: normLoop ws rest inCode inPre
    else
      emitNormalized ws content :: normLoop ws rest inCode inPre

/-- The `parts` lines of the fixer's block rebuild before the
trailing-blank correction. -/
def fixerBody (leadingWs : Str) (innerLines : List Str) : List Str :=
  normLoop leadingWs innerLines false false

/-- The `parts` lines after popping an artificial trailing blank star
line. -/
def fixerBody2 (leadingWs : Str) (innerLines : List Str) : List Str :=
  if !trailingStarBlank innerLines ∧ fixerBody leadingWs innerLines ≠ [] ∧
      (fixerBody leadingWs innerLines).getLast? = some (leadingWs ++ lit (" *"))
  then (fixerBody leadingWs innerLines).dropLast else fixerBody leadingWs innerLines

/-- The rebuilt block of the indent fixer: opener, normalized lines, a
possible removal of an artificial trailing blank star line, and the
closing delimiter. -/
def fixerNewBlock (leadingWs : Str) (innerLines : List Str) : Str :=
  joinLines ((lit ("/**")) :: fixerBody2 leadingWs innerLines ++ [leadingWs ++ lit (" */")])

/-- A change record of the fixer: start line and previews of the
original and new first lines. -/
abbrev FixChange := Nat × Str × Str

/-- `original_block.strip().splitlines()[0]` when non-blank, else the
first 40 characters. -/
def blockPreview (b : Str) : Str :=
  if pyStrip b = [] then b.take 40 else (splitLines (pyStrip b)).headD []

/-- Accumulator of the fixer's block loop. -/
structure FixAcc where
  newText : Str
  offset : Int
  changes : List FixChange
deriving Repr

/-- The skip decision and replacement of the fixer for a single block
`(start, end, inner)` of the original text: `none` when the block is
left untouched (single-line without `--normalize`, already-aligned
star prefixes, or a rebuild identical to the original), otherwise the
replacement block. -/
def blockReplacement (text : Str) (na : Bool) (b : Nat × Nat × Str) : Option Str :=
  let leadingWs := leadingWsAt text b.1
  let innerLines := splitLines b.2.2
  let originalBlock := (text.drop b.1).take (b.2.1 - b.1)
  if !originalBlock.contains '\n' && !na then none
  else
    let pres := starPres innerLines
    if !(na || pres.isEmpty || pres.any (· ≠ leadingWs)) then none
    else
      let newBlock := fixerNewBlock leadingWs innerLines
      if newBlock = originalBlock then none else some newBlock

/-- One iteration of the fixer's block loop: a block with a
replacement is spliced into the running buffer at the offset-shifted
span and recorded in the change list. -/
def fixStep (text : Str) (na : Bool) (acc : FixAcc) (b : Nat × Nat × Str) : FixAcc :=
  match blockReplacement text na b with
  | none => acc
  | some newBlock =>
    let startLine := countChar '\n' (text.take b.1) + 1
    let originalBlock := (text.drop b.1).take (b.2.1 - b.1)
    { newText :=
        acc.newText.take ((b.1 + acc.offset).toNat) ++ newBlock ++
          acc.newText.drop ((b.2.1 + acc.offset).toNat),
      offset := acc.offset + newBlock.length - (b.2.1 - b.1 : Nat),
      changes := acc.changes ++ [(startLine, blockPreview originalBlock, blockPreview newBlock)] }

/-- `analyze_and_fix_text(text, normalize_all)`: the new text and the
change list. -/
def analyzeAndFixText (text : Str) (na : Bool) : Str × List FixChange :=
  let fin := (findBlocks text).foldl (fixStep text na) ⟨text, 0, []⟩
  (fin.newText, fin.changes)

/-- Exit code of the fixer's `main`: 2 when the folder does not exist,
1 when changes were detected in dry-run mode, 0 otherwise (in
particular always 0 under `--fix`). -/
def fixerMainExit (folderExists : Bool) (files : List Str) (fix na : Bool) : Nat :=
  if !folderExists then 2
  else if !fix && files.any (fun f => !(analyzeAndFixText f na).2.isEmpty) then 1
  else 0

/-! ### Definitions for the splicing claim (C5) -/

/-- Modelled from the spec's RewritePlan: the final text as a plain
concatenation of segments — for each block of the original scan, the
untouched gap before it, then either its replacement or its original
text, and after the last block the untouched tail.  `pos` is the
offset (in original-text coordinates) up to which the text has been
emitted. -/
def spliceOver (text : Str) (na : Bool) : List (Nat × Nat × Str) → Nat → Str
  | [], pos => text.drop pos
  | b :: bs, pos =>
    (text.drop pos).take (b.1 - pos) ++
      ((blockReplacement text na b).getD ((text.drop b.1).take (b.2.1 - b.1))) ++
      spliceOver text na bs b.2.1

/-- The change records the fixer emits, one per replaced block, in
source order. -/
def changesOver (text : Str) (na : Bool) : List (Nat × Nat × Str) → List FixChange
  | [] => []
  | b :: bs =>
    (match blockReplacement text na b with
     | some r =>
       [(countChar '\n' (text.take b.1) + 1,
         blockPreview ((text.drop b.1).take (b.2.1 - b.1)), blockPreview r)]
     | none => []) ++ changesOver text na bs

/-- The inner group of a block text `/** ... */`. -/
def innerOfBlock (r : Str) : Str := (r.drop 3).take (r.length - 5)

/-- The blocks the extractor finds when re-scanning the spliced text:
for each original block, its start shifted by the cumulative length
difference of the earlier replacements (carried as the difference
between the emission offset `q` in the new text and the consumption
offset `pos` in the original text), its new end, and the inner text of
the segment that was spliced in. -/
def rescanOver (text : Str) (na : Bool) : List (Nat × Nat × Str) → Nat → Nat →
    List (Nat × Nat × Str)
  | [], _, _ => []
  | b :: bs, pos, q =>
    let r := (blockReplacement text na b).getD ((text.drop b.1).take (b.2.1 - b.1))
    (q + (b.1 - pos), q + (b.1 - pos) + r.length, innerOfBlock r) ::
      rescanOver text na bs b.2.1 (q + (b.1 - pos) + r.length)

/-- Absence of an occurrence of `pat` anywhere in `l`. -/
def noSub (pat l : Str) : Prop := ∀ e, ¬ pat <+: l.drop e

/-- The checker's fix-path replacement for one block `(start, end,
inner)`: when the block needs inserted tag lines, the rebuilt comment
block, else `none` (the block is left untouched). -/
def chkBlockReplacement (text : Str) (b : Nat × Nat × Str) : Option Str :=
  let res := blockResultFor text b
  let ins := insertLinesFor res.decl res.tags
  if ins ≠ [] then
    some (joinLines (fixedBlockParts (leadingWsAt text b.1) b.2.2 ins))
  else none

/-- Modelled from the spec's RewritePlan for the checker's `--fix`
pass: the final text as a plain concatenation of segments — for each
block of the original scan, the untouched gap before it, then either
its rebuilt text or its original text, and after the last block the
untouched tail. -/
def chkSpliceOver (text : Str) : List (Nat × Nat × Str) → Nat → Str
  | [], pos => text.drop pos
  | b :: bs, pos =>
    (text.drop pos).take (b.1 - pos) ++
      ((chkBlockReplacement text b).getD ((text.drop b.1).take (b.2.1 - b.1))) ++
      chkSpliceOver text bs b.2.1

/-! ### Helper lemmas -/

/-- The result list accumulated by the checker's block loop: one
record per block, computed from the original text only, independently
of the running buffer, the offset and the `fix` flag. -/
theorem chkFoldResults (text : Str) (fix : Bool) :
    ∀ (bs : List (Nat × Nat × Str)) (acc : ChkAcc),
      (bs.foldl (chkStep text fix) acc).results =
        acc.results ++ bs.map (blockResultFor text)
  | [], acc => by simp
  | b :: bs, acc => by
    rw [List.foldl_cons, chkFoldResults text fix bs]
    simp [chkStep]

/-- The total issue count of the checker does not depend on the `fix`
flag. -/
theorem checkerTotalIssuesFixIrrelevant (files : List Str) (fix : Bool) :
    checkerTotalIssues files fix = checkerTotalIssues files false := by
  simp [checkerTotalIssues, analyzeFileChecker, chkFoldResults]

/-- A proper-prefix disagreement makes two texts different regardless
of the first one's tail. -/
theorem appendNeOfTakeNe (a b : Str) (n : Nat) (h : n ≤ a.length)
    (hne : a.take n ≠ b.take n) : ∀ s, a ++ s ≠ b := by
  intro s h2
  apply hne
  rw [← h2, List.take_append_of_le_length h]

/-- Membership in a conditional singleton. -/
theorem memIteSingleton {c : Prop} [Decidable c] {y x : Str} :
    x ∈ (if c then [y] else []) → x = y := by
  split
  · simp
  · simp

/-- The fixer's block loop leaves the accumulator unchanged when every
block is skipped. -/
theorem fixFoldSkipsAll (text : Str) (na : Bool) :
    ∀ (bs : List (Nat × Nat × Str)) (acc : FixAcc),
      (∀ b ∈ bs, blockReplacement text na b = none) →
      bs.foldl (fixStep text na) acc = acc
  | [], acc, _ => rfl
  | b :: bs, acc, h => by
    rw [List.foldl_cons]
    have hb : blockReplacement text na b = none := h b (by simp)
    have hstep : fixStep text na acc b = acc := by
      unfold fixStep
      rw [hb]
    rw [hstep]
    exact fixFoldSkipsAll text na bs acc (fun b' hb' => h b' (by simp [hb']))

/-! ### Lemmas about findSub and the block scan (for claim C5) -/

/-- An occurrence reported by `findSub` fits inside the text. -/
theorem findSubLeLength (pat : Str) :
    ∀ (s : Str) (d : Nat), findSub pat s = some d → d + pat.length ≤ s.length
  | [], d, h => by simp [findSub] at h
  | c :: rest, d, h => by
    rw [findSub] at h
    split at h
    · cases h
      next hpre =>
        simpa using (List.isPrefixOf_iff_prefix.mp hpre).length_le
    · rcases Option.map_eq_some'.mp h with ⟨d', hd', rfl⟩
      have := findSubLeLength pat rest d' hd'
      simp only [List.length_cons]
      omega

/-- `findSub` reports a real occurrence. -/
theorem findSubSomePrefix (pat : Str) :
    ∀ (s : Str) (d : Nat), findSub pat s = some d → pat <+: s.drop d
  | [], d, h => by simp [findSub] at h
  | c :: rest, d, h => by
    rw [findSub] at h
    split at h
    · cases h
      next hpre => simpa using List.isPrefixOf_iff_prefix.mp hpre
    · rcases Option.map_eq_some'.mp h with ⟨d', hd', rfl⟩
      simpa using findSubSomePrefix pat rest d' hd'

/-- `findSub` reports the leftmost occurrence. -/
theorem findSubSomeMin (pat : Str) :
    ∀ (s : Str) (d : Nat), findSub pat s = some d →
      ∀ e, e < d → ¬ pat <+: s.drop e
  | [], d, h => by simp [findSub] at h
  | c :: rest, d, h => by
    rw [findSub] at h
    split at h
    next hpre =>
      cases h
      intro e he
      omega
    next hpre =>
      rcases Option.map_eq_some'.mp h with ⟨d', hd', rfl⟩
      intro e he
      cases e with
      | zero =>
        intro hcontra
        exact hpre (List.isPrefixOf_iff_prefix.mpr (by simpa using hcontra))
      | succ e' =>
        have := findSubSomeMin pat rest d' hd' e' (by omega)
        simpa using this

/-- The opening delimiter as an explicit cons pattern. -/
theorem openerPrefixIff (L : Str) :
    opener <+: L ↔ ∃ t, L = '/' :: '*' :: '*' :: t := by
  constructor
  · intro h
    rcases h with ⟨t, ht⟩
    exact ⟨t, ht.symm⟩
  · rintro ⟨t, rfl⟩
    exact ⟨t, rfl⟩

/-- The closing delimiter as an explicit cons pattern. -/
theorem closerPrefixIff (L : Str) :
    closer <+: L ↔ ∃ t, L = '*' :: '/' :: t := by
  constructor
  · intro h
    rcases h with ⟨t, ht⟩
    exact ⟨t, ht.symm⟩
  · rintro ⟨t, rfl⟩
    exact ⟨t, rfl⟩

/-- A gap with no `/**` occurrence cannot hide one that spans into a
following `/**` either, so the leftmost `/**` of `g ++ /** ++ X` is at
offset `g.length`. -/
theorem findSubAppendOpener :
    ∀ (g : Str) (X : Str), noSub opener g →
      findSub opener (g ++ opener ++ X) = some g.length
  | [], X, _ => by
    have h : ([] : Str) ++ opener ++ X = '/' :: '*' :: '*' :: X := rfl
    rw [h, findSub,
      if_pos (List.isPrefixOf_iff_prefix.mpr
        (show opener <+: '/' :: '*' :: '*' :: X from ⟨X, rfl⟩))]
    rfl
  | c :: g', X, hg => by
    have hsplit : (c :: g') ++ opener ++ X = c :: (g' ++ opener ++ X) := by
      simp
    rw [hsplit, findSub, if_neg ?hpre]
    case hpre =>
      intro hpre
      have hp := List.isPrefixOf_iff_prefix.mp hpre
      rcases (openerPrefixIff _).mp hp with ⟨t, ht⟩
      rcases g' with _ | ⟨d, _ | ⟨e, g''⟩⟩
      · have : c :: (([] : Str) ++ opener ++ X) = c :: '/' :: '*' :: '*' :: X := rfl
        rw [this] at ht
        have h1 := (List.cons.injEq _ _ _ _).mp ht
        have h2 := (List.cons.injEq _ _ _ _).mp h1.2
        exact absurd h2.1 (by decide)
      · have : c :: (([d] : Str) ++ opener ++ X) = c :: d :: '/' :: '*' :: '*' :: X := rfl
        rw [this] at ht
        have h1 := (List.cons.injEq _ _ _ _).mp ht
        have h2 := (List.cons.injEq _ _ _ _).mp h1.2
        have h3 := (List.cons.injEq _ _ _ _).mp h2.2
        exact absurd h3.1 (by decide)
      · have : c :: ((d :: e :: g'') ++ opener ++ X) =
            c :: d :: e :: (g'' ++ opener ++ X) := by simp
        rw [this] at ht
        have h1 := (List.cons.injEq _ _ _ _).mp ht
        have h2 := (List.cons.injEq _ _ _ _).mp h1.2
        have h3 := (List.cons.injEq _ _ _ _).mp h2.2
        apply hg 0
        rw [List.drop_zero]
        exact (openerPrefixIff _).2 ⟨g'', by rw [h1.1, h2.1, h3.1]⟩
    rw [findSubAppendOpener g' X (fun e => by simpa using hg (e + 1))]
    rfl

/-- The leftmost `*/` of `m ++ */ ++ X` with no `*/` inside `m` is at
offset `m.length` (a span into the following `*/` would need its first
character to be `/`). -/
theorem findSubAppendCloser :
    ∀ (m : Str) (X : Str), noSub closer m →
      findSub closer (m ++ closer ++ X) = some m.length
  | [], X, _ => by
    have h : ([] : Str) ++ closer ++ X = '*' :: '/' :: X := rfl
    rw [h, findSub,
      if_pos (List.isPrefixOf_iff_prefix.mpr
        (show closer <+: '*' :: '/' :: X from ⟨X, rfl⟩))]
    rfl
  | c :: m', X, hm => by
    have hsplit : (c :: m') ++ closer ++ X = c :: (m' ++ closer ++ X) := by
      simp
    rw [hsplit, findSub, if_neg ?hpre]
    case hpre =>
      intro hpre
      have hp := List.isPrefixOf_iff_prefix.mp hpre
      rcases (closerPrefixIff _).mp hp with ⟨t, ht⟩
      rcases m' with _ | ⟨d, m''⟩
      · have : c :: (([] : Str) ++ closer ++ X) = c :: '*' :: '/' :: X := rfl
        rw [this] at ht
        have h1 := (List.cons.injEq _ _ _ _).mp ht
        have h2 := (List.cons.injEq _ _ _ _).mp h1.2
        exact absurd h2.1 (by decide)
      · have : c :: ((d :: m'') ++ closer ++ X) = c :: d :: (m'' ++ closer ++ X) := by
          simp
        rw [this] at ht
        have h1 := (List.cons.injEq _ _ _ _).mp ht
        have h2 := (List.cons.injEq _ _ _ _).mp h1.2
        apply hm 0
        rw [List.drop_zero]
        exact (closerPrefixIff _).2 ⟨m'', by rw [h1.1, h2.1]⟩
    rw [findSubAppendCloser m' X (fun e => by simpa using hm (e + 1))]
    rfl

/-- The scan of the empty text is empty at any fuel. -/
theorem findBlocksGoNil : ∀ (f p : Nat), findBlocksGo f p [] = []
  | 0, _ => rfl
  | _ + 1, _ => by rw [findBlocksGo]; rfl

/-- The scan result does not depend on the fuel once the fuel covers
the text length. -/
theorem findBlocksGoCongr :
    ∀ (f1 f2 p : Nat) (s : Str), s.length ≤ f1 → s.length ≤ f2 →
      findBlocksGo f1 p s = findBlocksGo f2 p s
  | 0, f2, p, s, h1, _ => by
    have : s = [] := List.length_eq_zero.mp (Nat.le_zero.mp h1)
    subst this
    rw [findBlocksGoNil, findBlocksGoNil]
  | _ + 1, 0, p, s, _, h2 => by
    have : s = [] := List.length_eq_zero.mp (Nat.le_zero.mp h2)
    subst this
    rw [findBlocksGoNil, findBlocksGoNil]
  | f1 + 1, f2 + 1, p, s, h1, h2 => by
    rw [findBlocksGo, findBlocksGo]
    cases ho : findSub opener s with
    | none => simp only [ho]
    | some d =>
      simp only [ho]
      cases hc : findSub closer (s.drop (d + 3)) with
      | none => simp only [hc]
      | some d2 =>
        simp only [hc]
        have hb1 := findSubLeLength _ _ _ ho
        have hb2 := findSubLeLength _ _ _ hc
        simp only [List.length_drop] at hb2
        have hlen1 : ((s.drop (d + 3)).drop (d2 + 2)).length ≤ f1 := by
          simp only [List.length_drop]
          omega
        have hlen2 : ((s.drop (d + 3)).drop (d2 + 2)).length ≤ f2 := by
          simp only [List.length_drop]
          omega
        rw [findBlocksGoCongr f1 f2 _ _ hlen1 hlen2]

/-- The scan at position `p` is the scan at position 0 with all
offsets shifted by `p`. -/
theorem findBlocksGoShift :
    ∀ (f p : Nat) (s : Str),
      findBlocksGo f p s =
        (findBlocksGo f 0 s).map (fun b => (b.1 + p, b.2.1 + p, b.2.2))
  | 0, p, s => rfl
  | f + 1, p, s => by
    rw [findBlocksGo, findBlocksGo]
    cases ho : findSub opener s with
    | none => simp only [ho, List.map_nil]
    | some d =>
      simp only [ho]
      cases hc : findSub closer (s.drop (d + 3)) with
      | none => simp only [hc, List.map_nil]
      | some d2 =>
        simp only [hc, List.map_cons, List.cons.injEq, Prod.mk.injEq]
        refine ⟨⟨by omega, by omega, trivial⟩, ?_⟩
        rw [findBlocksGoShift f (p + d + 3 + d2 + 2),
          findBlocksGoShift f (0 + d + 3 + d2 + 2), List.map_map]
        congr 1
        funext b
        simp only [Function.comp_apply, Prod.mk.injEq]
        refine ⟨by omega, by omega, trivial⟩

/-- Unfolding equation for a successful scan step. -/
theorem findBlocksAuxEq (p : Nat) (s : Str) (d d2 : Nat)
    (h1 : findSub opener s = some d)
    (h2 : findSub closer (s.drop (d + 3)) = some d2) :
    findBlocksAux p s =
      (p + d, p + d + 3 + d2 + 2, (s.drop (d + 3)).take d2) ::
        findBlocksAux (p + d + 3 + d2 + 2) ((s.drop (d + 3)).drop (d2 + 2)) := by
  have hb1 := findSubLeLength _ _ _ h1
  have hb2 := findSubLeLength _ _ _ h2
  have hol : opener.length = 3 := rfl
  have hcl : closer.length = 2 := rfl
  rw [hol] at hb1
  rw [hcl] at hb2
  simp only [List.length_drop] at hb2
  have hpos : s.length = (s.length - 1) + 1 := by omega
  rw [findBlocksAux, hpos, findBlocksGo]
  simp only [h1, h2]
  rw [findBlocksAux]
  rw [findBlocksGoCongr (s.length - 1) ((s.drop (d + 3)).drop (d2 + 2)).length _ _
    (by simp only [List.length_drop]; omega) (le_refl _)]

/-- A scan with no opening delimiter is empty. -/
theorem findBlocksAuxNone1 (p : Nat) (s : Str)
    (h1 : findSub opener s = none) : findBlocksAux p s = [] := by
  rw [findBlocksAux]
  cases hl : s.length with
  | zero => rfl
  | succ f => rw [findBlocksGo, h1]

/-- A scan whose first opening delimiter has no closing delimiter is
empty. -/
theorem findBlocksAuxNone2 (p : Nat) (s : Str) (d : Nat)
    (h1 : findSub opener s = some d)
    (h2 : findSub closer (s.drop (d + 3)) = none) : findBlocksAux p s = [] := by
  rw [findBlocksAux]
  cases hl : s.length with
  | zero =>
    have : s = [] := List.length_eq_zero.mp hl
    subst this
    simp [findSub] at h1
  | succ f =>
    rw [findBlocksGo]
    simp only [h1, h2]

/-- Splitting off a matched opening delimiter. -/
theorem dropEqOpenerAppend (s : Str) (d : Nat) (h : opener <+: s.drop d) :
    s.drop d = opener ++ s.drop (d + 3) := by
  rcases (openerPrefixIff _).mp h with ⟨t, ht⟩
  have h3 : s.drop (d + 3) = t := by
    have : (s.drop d).drop 3 = s.drop (d + 3) := List.drop_drop 3 d s
    rw [← this, ht]
    rfl
  rw [ht, h3]
  rfl

/-- Splitting off a matched closing delimiter. -/
theorem dropEqCloserAppend (u : Str) (d2 : Nat) (h : closer <+: u.drop d2) :
    u.drop d2 = closer ++ u.drop (d2 + 2) := by
  rcases (closerPrefixIff _).mp h with ⟨t, ht⟩
  have h2 : u.drop (d2 + 2) = t := by
    have : (u.drop d2).drop 2 = u.drop (d2 + 2) := List.drop_drop 2 d2 u
    rw [← this, ht]
    rfl
  rw [ht, h2]
  rfl

/-- A text with no occurrence of `pat` before offset `d` has none in
its prefix of length `d` at all. -/
theorem noSubTake (pat s : Str) (d : Nat) (hne : pat ≠ [])
    (hmin : ∀ e, e < d → ¬ pat <+: s.drop e) : noSub pat (s.take d) := by
  intro e hpre
  rcases Nat.lt_or_ge e d with he | he
  · rw [List.drop_take] at hpre
    exact hmin e he (hpre.trans (List.take_prefix _ _))
  · rw [List.drop_eq_nil_of_le (by simp; omega)] at hpre
    rcases hpre with ⟨t, ht⟩
    exact hne (by cases pat <;> simp_all)

/-- Occurrence-freedom restricts to infixes. -/
theorem noSubInfix (pat l s : Str) (hs : noSub pat s) (hinf : l <:+: s) :
    noSub pat l := by
  rcases hinf with ⟨u, v, huv⟩
  intro e hpre
  apply hs (u.length + e)
  rw [← huv, List.append_assoc, List.drop_append_eq_append_drop,
    List.drop_eq_nil_of_le (by omega), List.nil_append]
  have he : u.length + e - u.length = e := by omega
  rw [he, List.drop_append_eq_append_drop]
  exact hpre.trans (List.prefix_append _ _)

/-- Whitespace-only texts contain no `*/`. -/
theorem noSubCloserOfSpace (l : Str) (h : ∀ c ∈ l, isPySpace c = true) :
    noSub closer l := by
  intro e hpre
  rcases (closerPrefixIff _).mp hpre with ⟨t, ht⟩
  have : '*' ∈ l := by
    apply List.mem_of_mem_drop (n := e)
    rw [ht]
    simp
  have := h '*' this
  simp [isPySpace] at this

/-- A bounded check suffices for occurrence-freedom (used for concrete
short strings). -/
theorem noSubOfCheck (pat l : Str) (hne : pat ≠ [])
    (h : ∀ e, e < l.length → ¬ pat <+: l.drop e) : noSub pat l := by
  intro e hpre
  rcases Nat.lt_or_ge e l.length with he | he
  · exact h e he hpre
  · rw [List.drop_eq_nil_of_le he] at hpre
    rcases hpre with ⟨t, ht⟩
    exact hne (by cases pat <;> simp_all)

/-- Appending preserves occurrence-freedom of `*/` when the boundary
cannot form one. -/
theorem noSubCloserAppend (a b : Str) (ha : noSub closer a) (hb : noSub closer b)
    (hbd : a.getLast? ≠ some '*' ∨ b.head? ≠ some '/') :
    noSub closer (a ++ b) := by
  intro e hpre
  rw [List.drop_append_eq_append_drop] at hpre
  rcases Nat.lt_or_ge e a.length with he | he
  · rcases (closerPrefixIff _).mp hpre with ⟨t, ht⟩
    cases hda : a.drop e with
    | nil =>
      have : a.length ≤ e := by
        by_contra hcon
        have := congrArg List.length hda
        simp at this
        omega
      omega
    | cons x xs =>
      cases xs with
      | nil =>
        rw [hda, List.cons_append, List.nil_append] at ht
        have h1 := (List.cons.injEq _ _ _ _).mp ht
        have hx : x = '*' := h1.1
        have hbhead : b.drop (e - a.length) = '/' :: t := h1.2
        have heb : e - a.length = 0 := by omega
        rw [heb, List.drop_zero] at hbhead
        have hlast : a.getLast? = some '*' := by
          have : a = a.take e ++ [x] := by
            conv_lhs => rw [← List.take_append_drop e a, hda]
          rw [this, hx]
          simp
        rcases hbd with hbd | hbd
        · exact hbd hlast
        · exact hbd (by rw [hbhead]; rfl)
      | cons y ys =>
        apply ha e
        rw [hda, List.cons_append, List.cons_append] at ht
        have h1 := (List.cons.injEq _ _ _ _).mp ht
        have h2 := (List.cons.injEq _ _ _ _).mp h1.2
        rw [hda]
        exact (closerPrefixIff _).2 ⟨ys, by rw [h1.1, h2.1]⟩
  · rw [List.drop_eq_nil_of_le he, List.nil_append] at hpre
    exact hb _ hpre

/-- The lines of a text are infixes of it (and the first is a
prefix). -/
theorem splitLinesGoSpec :
    ∀ s : Str, ∃ hd tl, splitLinesGo s = hd :: tl ∧ hd <+: s ∧ ∀ l ∈ tl, l <:+: s
  | [] => ⟨[], [], rfl, List.nil_prefix, by simp⟩
  | c :: rest => by
    by_cases hc : c = '\n'
    · subst hc
      cases rest with
      | nil =>
        refine ⟨[], [], rfl, List.nil_prefix, ?_⟩
        intro l hl
        simp at hl
      | cons r rs =>
        obtain ⟨hd, tl, heq, hpre, hinf⟩ := splitLinesGoSpec (r :: rs)
        refine ⟨[], hd :: tl, ?_, List.nil_prefix, ?_⟩
        · rw [show splitLinesGo ('\n' :: r :: rs) = [] :: splitLinesGo (r :: rs) from rfl,
            heq]
        · intro l hl
          rcases List.mem_cons.mp hl with rfl | hl
          · exact List.infix_cons hpre.isInfix
          · exact List.infix_cons (hinf l hl)
    · obtain ⟨hd, tl, heq, hpre, hinf⟩ := splitLinesGoSpec rest
      refine ⟨c :: hd, tl, ?_, ?_, ?_⟩
      · rw [splitLinesGo.eq_def]
        simp only []
        rw [if_neg hc, heq]
      · exact List.cons_prefix_cons.mpr ⟨rfl, hpre⟩
      · intro l hl
        exact List.infix_cons (hinf l hl)

/-- Every line produced by `splitLines` is an infix of the text. -/
theorem splitLinesInfix (s : Str) : ∀ l ∈ splitLines s, l <:+: s := by
  cases s with
  | nil => simp [splitLines]
  | cons c rest =>
    obtain ⟨hd, tl, heq, hpre, hinf⟩ := splitLinesGoSpec (c :: rest)
    rw [show splitLines (c :: rest) = splitLinesGo (c :: rest) from rfl, heq]
    intro l hl
    rcases List.mem_cons.mp hl with rfl | hl
    · exact hpre.isInfix
    · exact hinf l hl

/-- Joining a first line. -/
theorem joinLinesCons (a b : Str) (t : List Str) :
    joinLines (a :: b :: t) = a ++ '\n' :: joinLines (b :: t) := by
  simp only [joinLines, List.intercalate, List.intersperse_cons_cons, List.flatten_cons,
    List.append_assoc]
  rfl

/-- Joining a single line. -/
theorem joinLinesSingle (a : Str) : joinLines [a] = a := by
  simp [joinLines, List.intercalate]

/-- Joining onto a final line. -/
theorem joinLinesSnoc :
    ∀ (xs : List Str) (y : Str), xs ≠ [] →
      joinLines (xs ++ [y]) = joinLines xs ++ '\n' :: y
  | [], _, h => absurd rfl h
  | [a], y, _ => by
    rw [List.singleton_append, joinLinesCons, joinLinesSingle, joinLinesSingle]
  | a :: b :: t, y, _ => by
    have h1 : (a :: b :: t) ++ [y] = a :: ((b :: t) ++ [y]) := by simp
    have h2 : (b :: t) ++ [y] = b :: (t ++ [y]) := by simp
    rw [h1, h2, joinLinesCons, ← h2, joinLinesSnoc (b :: t) y (by simp), joinLinesCons]
    simp

/-- The empty text has no occurrences at all. -/
theorem noSubNil (pat : Str) (hne : pat ≠ []) : noSub pat [] := by
  intro e hpre
  rcases hpre with ⟨t, ht⟩
  exact hne (by cases pat <;> simp_all)

/-- A suffix of an occurrence-free text is occurrence-free. -/
theorem noSubDrop (pat l : Str) (h : noSub pat l) (k : Nat) : noSub pat (l.drop k) := by
  intro e hpre
  rw [List.drop_drop] at hpre
  exact h _ hpre

/-- Joining occurrence-free lines with newlines cannot create a
`*/`. -/
theorem noSubCloserJoin :
    ∀ (lines : List Str), (∀ l ∈ lines, noSub closer l) →
      noSub closer (joinLines lines)
  | [], _ => by
    rw [show joinLines [] = [] from rfl]
    exact noSubNil _ (by decide)
  | [a], h => by
    rw [joinLinesSingle]
    exact h a (by simp)
  | a :: b :: t, h => by
    rw [joinLinesCons]
    apply noSubCloserAppend
    · exact h a (by simp)
    · apply noSubCloserAppend [('\n' : Char)]
      · exact noSubCloserOfSpace _ (by simp [isPySpace])
      · exact noSubCloserJoin (b :: t) (fun l hl => h l (by simp [hl]))
      · left
        intro hcon
        rw [show ([('\n' : Char)]).getLast? = some '\n' from rfl] at hcon
        exact absurd (Option.some.inj hcon) (by decide)
    · right
      intro hcon
      rw [List.head?_cons] at hcon
      exact absurd (Option.some.inj hcon) (by decide)

/-- The after-star suffix of a line is occurrence-free when the line
is. -/
theorem starMatchNoSub (l r : Str) (hl : noSub closer l)
    (h : starMatch l = some r) : noSub closer r := by
  cases hd : l.dropWhile isPySpace with
  | nil =>
    simp only [starMatch, hd] at h
    exact Option.noConfusion h
  | cons x xs =>
    simp only [starMatch, hd] at h
    split at h
    · have hr : xs = r := Option.some.inj h
      subst hr
      apply noSubInfix closer xs l hl
      have hsuf : l.dropWhile isPySpace <:+ l := List.dropWhile_suffix isPySpace
      rw [hd] at hsuf
      exact ((List.suffix_cons x xs).trans hsuf).isInfix
    · cases h

/-- A whitespace prefix followed by the star marker contains no
`*/`. -/
theorem noSubCloserWsStar (ws : Str) (hws : ∀ k ∈ ws, isPySpace k = true) :
    noSub closer (ws ++ lit (" *")) := by
  apply noSubCloserAppend
  · exact noSubCloserOfSpace ws hws
  · exact noSubOfCheck _ _ (by decide) (by decide)
  · right
    decide

/-- Emitted preserve-lines contain no `*/` when their content does
not. -/
theorem emitPreserveNoSub (ws c : Str) (hws : ∀ k ∈ ws, isPySpace k = true)
    (hc : noSub closer c) : noSub closer (emitPreserve ws c) := by
  unfold emitPreserve
  split
  next hh =>
    apply noSubCloserAppend
    · exact noSubCloserWsStar ws hws
    · exact hc
    · right
      rw [hh]
      decide
  next hh =>
    have hre : ws ++ lit (" * ") ++ c = (ws ++ lit (" *")) ++ (' ' :: c) := by
      rw [List.append_assoc, List.append_assoc]
      rfl
    rw [hre]
    apply noSubCloserAppend
    · exact noSubCloserWsStar ws hws
    · apply noSubCloserAppend [' '] c (noSubCloserOfSpace _ (by simp [isPySpace])) hc
      left
      decide
    · right
      rw [List.head?_cons]
      decide

/-- Emitted normalized lines contain no `*/` when their content does
not. -/
theorem emitNormalizedNoSub (ws c : Str) (hws : ∀ k ∈ ws, isPySpace k = true)
    (hc : noSub closer c) : noSub closer (emitNormalized ws c) := by
  unfold emitNormalized
  have hlc : noSub closer (pyLstrip c) :=
    noSubInfix _ _ _ hc (List.dropWhile_suffix isPySpace).isInfix
  split
  · exact noSubCloserWsStar ws hws
  · have hre : ws ++ lit (" * ") ++ pyLstrip c =
        (ws ++ lit (" *")) ++ (' ' :: pyLstrip c) := by
      rw [List.append_assoc, List.append_assoc]
      rfl
    rw [hre]
    apply noSubCloserAppend
    · exact noSubCloserWsStar ws hws
    · apply noSubCloserAppend [' '] _ (noSubCloserOfSpace _ (by simp [isPySpace])) hlc
      left
      decide
    · right
      rw [List.head?_cons]
      decide

/-- One step of the rebuild loop emits one clean line. -/
theorem normLoopStep (ws : Str) (l : Str) (rest : List Str) (ic ip : Bool)
    (hws : ∀ k ∈ ws, isPySpace k = true) (hl : noSub closer l) :
    ∃ (e : Str) (ic' ip' : Bool),
      normLoop ws (l :: rest) ic ip = e :: normLoop ws rest ic' ip' ∧
        noSub closer e := by
  have hcontent : noSub closer (match starMatch l with | some r => r | none => l) := by
    cases hs : starMatch l with
    | some r => exact starMatchNoSub l r hl hs
    | none => exact hl
  simp only [normLoop]
  split_ifs
  all_goals
    first
      | exact ⟨_, _, _, rfl, emitPreserveNoSub ws _ hws hcontent⟩
      | exact ⟨_, _, _, rfl, emitNormalizedNoSub ws _ hws hcontent⟩

/-- Every line of the rebuild loop is clean. -/
theorem normLoopNoSub (ws : Str) (hws : ∀ k ∈ ws, isPySpace k = true) :
    ∀ (lines : List Str) (ic ip : Bool), (∀ l ∈ lines, noSub closer l) →
      ∀ L ∈ normLoop ws lines ic ip, noSub closer L
  | [], _, _, _ => by simp [normLoop]
  | l :: rest, ic, ip, h => by
    obtain ⟨e, ic', ip', heq, hcc⟩ :=
      normLoopStep ws l rest ic ip hws (h l (by simp))
    rw [heq]
    intro L hL
    rcases List.mem_cons.mp hL with rfl | hL
    · exact hcc
    · exact normLoopNoSub ws hws rest ic' ip'
        (fun l' hl' => h l' (by simp [hl'])) L hL

/-- The rebuilt block of the indent fixer is a well-formed comment
block whose inner text contains no early `*/`. -/
theorem fixerNewBlockShape (ws : Str) (innerLines : List Str)
    (hws : ∀ k ∈ ws, isPySpace k = true)
    (hlines : ∀ l ∈ innerLines, noSub closer l) :
    ∃ mid, fixerNewBlock ws innerLines = opener ++ mid ++ closer ∧
      noSub closer mid := by
  unfold fixerNewBlock
  have hbody : ∀ L ∈ fixerBody2 ws innerLines, noSub closer L := by
    intro L hL
    rw [fixerBody2] at hL
    split at hL
    · exact normLoopNoSub ws hws innerLines false false hlines L
        (List.dropLast_subset _ hL)
    · exact normLoopNoSub ws hws innerLines false false hlines L hL
  have hcl : ws ++ lit (" */") = (ws ++ [' ']) ++ closer := by
    rw [List.append_assoc]
    rfl
  cases hB : fixerBody2 ws innerLines with
  | nil =>
    refine ⟨'\n' :: (ws ++ [' ']), ?_, ?_⟩
    · rw [List.singleton_append, joinLinesCons, joinLinesSingle, hcl]
      rw [show opener ++ ('\n' :: (ws ++ [' '])) ++ closer =
        opener ++ ('\n' :: ((ws ++ [' ']) ++ closer)) from by simp]
      rfl
    · apply noSubCloserOfSpace
      intro k hk
      rcases List.mem_cons.mp hk with rfl | hk
      · rfl
      · rcases List.mem_append.mp hk with hk | hk
        · exact hws k hk
        · rcases List.mem_singleton.mp hk with rfl
          rfl
  | cons b bs =>
    rw [hB] at hbody
    refine ⟨'\n' :: (joinLines (b :: bs) ++ '\n' :: (ws ++ [' '])), ?_, ?_⟩
    · simp only [List.cons_append]
      rw [joinLinesCons]
      rw [show b :: (bs ++ [ws ++ lit (" */")]) = (b :: bs) ++ [ws ++ lit (" */")]
        from by simp]
      rw [joinLinesSnoc (b :: bs) _ (by simp), hcl]
      rw [show (lit ("/**")) ++
          '\n' :: (joinLines (b :: bs) ++ '\n' :: ((ws ++ [' ']) ++ closer)) =
          opener ++ ('\n' :: (joinLines (b :: bs) ++ '\n' :: (ws ++ [' ']))) ++ closer
        from by simp [opener]]
    · apply noSubCloserAppend [('\n' : Char)]
      · exact noSubCloserOfSpace _ (by simp [isPySpace])
      · apply noSubCloserAppend
        · exact noSubCloserJoin (b :: bs) hbody
        · apply noSubCloserOfSpace
          intro k hk
          rcases List.mem_cons.mp hk with rfl | hk
          · rfl
          · rcases List.mem_append.mp hk with hk | hk
            · exact hws k hk
            · rcases List.mem_singleton.mp hk with rfl
              rfl
        · right
          rw [List.head?_cons]
          decide
      · left
        intro hcon
        rw [show ([('\n' : Char)]).getLast? = some '\n' from rfl] at hcon
        exact absurd (Option.some.inj hcon) (by decide)

/-- A replacement produced by the fixer for a block whose inner text
is clean is a well-formed comment block with clean inner text. -/
theorem blockReplacementShape (text : Str) (na : Bool) (b : Nat × Nat × Str) (r : Str)
    (hcc : noSub closer b.2.2) (h : blockReplacement text na b = some r) :
    ∃ mid, r = opener ++ mid ++ closer ∧ noSub closer mid := by
  simp only [blockReplacement] at h
  split_ifs at h with h1 h2 h3
  all_goals
    have hr : fixerNewBlock (leadingWsAt text b.1) (splitLines b.2.2) = r :=
      Option.some.inj h
  all_goals subst hr
  all_goals apply fixerNewBlockShape
  all_goals intro k hk
  · exact List.mem_takeWhile_imp hk
  · exact noSubInfix _ _ _ hcc (splitLinesInfix _ k hk)

/-- The inner group of a well-formed block text. -/
theorem innerOfBlockEq (mid : Str) : innerOfBlock (opener ++ mid ++ closer) = mid := by
  unfold innerOfBlock
  have h1 : (opener ++ mid ++ closer).drop 3 = mid ++ closer := by
    rw [List.append_assoc]
    exact List.drop_left' rfl
  have h2 : (opener ++ mid ++ closer).length - 5 = mid.length := by
    simp only [List.length_append]
    rw [show opener.length = 3 from rfl, show closer.length = 2 from rfl]
    omega
  rw [h1, h2, List.take_left]

/-- Decomposition of the remaining text at a successful scan step: the
gap, the matched block `/** inner */` and the rest, together with the
length facts the splicing argument needs. -/
theorem scanStepFacts (text : Str) (p d d2 : Nat)
    (ho : findSub opener (text.drop p) = some d)
    (hc : findSub closer ((text.drop p).drop (d + 3)) = some d2) :
    (text.drop p).take d ++
        (opener ++ ((text.drop p).drop (d + 3)).take d2 ++ closer) ++
        text.drop (p + d + 3 + d2 + 2) = text.drop p ∧
    (text.drop (p + d)).take ((p + d + 3 + d2 + 2) - (p + d)) =
      opener ++ ((text.drop p).drop (d + 3)).take d2 ++ closer ∧
    text.drop (p + d + 3 + d2 + 2) = ((text.drop p).drop (d + 3)).drop (d2 + 2) ∧
    d + 3 + d2 + 2 ≤ (text.drop p).length ∧
    (((text.drop p).drop (d + 3)).take d2).length = d2 ∧
    ((text.drop p).take d).length = d := by
  have hlo : d + 3 ≤ (text.drop p).length := by
    have := findSubLeLength _ _ _ ho
    rw [show opener.length = 3 from rfl] at this
    exact this
  have hlc : d2 + 2 ≤ ((text.drop p).drop (d + 3)).length := by
    have := findSubLeLength _ _ _ hc
    rw [show closer.length = 2 from rfl] at this
    exact this
  have hlc' : d2 + 2 ≤ (text.drop p).length - (d + 3) := by
    rw [List.length_drop] at hlc
    exact hlc
  have h1 : (text.drop p).drop d = opener ++ (text.drop p).drop (d + 3) :=
    dropEqOpenerAppend _ d (findSubSomePrefix _ _ _ ho)
  have h2 : ((text.drop p).drop (d + 3)).drop d2 =
      closer ++ ((text.drop p).drop (d + 3)).drop (d2 + 2) :=
    dropEqCloserAppend _ d2 (findSubSomePrefix _ _ _ hc)
  have h3 : (text.drop p).drop (d + 3) =
      ((text.drop p).drop (d + 3)).take d2 ++
        (closer ++ ((text.drop p).drop (d + 3)).drop (d2 + 2)) := by
    rw [← h2]
    exact (List.take_append_drop d2 _).symm
  have hinlen : (((text.drop p).drop (d + 3)).take d2).length = d2 := by
    rw [List.length_take]
    omega
  have hrest : text.drop (p + d + 3 + d2 + 2) =
      ((text.drop p).drop (d + 3)).drop (d2 + 2) := by
    rw [List.drop_drop, List.drop_drop]
    congr 1
    omega
  have hpd : (text.drop p).drop d = text.drop (p + d) := by
    rw [List.drop_drop]
  have horig : (text.drop (p + d)).take ((p + d + 3 + d2 + 2) - (p + d)) =
      opener ++ ((text.drop p).drop (d + 3)).take d2 ++ closer := by
    rw [show (p + d + 3 + d2 + 2) - (p + d) = d2 + 5 from by omega, ← hpd, h1]
    conv_lhs => rw [h3]
    rw [show opener ++ (((text.drop p).drop (d + 3)).take d2 ++
        (closer ++ ((text.drop p).drop (d + 3)).drop (d2 + 2))) =
        (opener ++ ((text.drop p).drop (d + 3)).take d2 ++ closer) ++
          ((text.drop p).drop (d + 3)).drop (d2 + 2) from by simp]
    have hlen5 : (opener ++ ((text.drop p).drop (d + 3)).take d2 ++ closer).length =
        d2 + 5 := by
      simp only [List.length_append, hinlen,
        show opener.length = 3 from rfl, show closer.length = 2 from rfl]
      omega
    exact List.take_left' hlen5
  refine ⟨?_, horig, hrest, by omega, hinlen, by rw [List.length_take]; omega⟩
  rw [hrest]
  calc (text.drop p).take d ++
        (opener ++ ((text.drop p).drop (d + 3)).take d2 ++ closer) ++
        ((text.drop p).drop (d + 3)).drop (d2 + 2)
      = (text.drop p).take d ++
          (opener ++ (((text.drop p).drop (d + 3)).take d2 ++
            (closer ++ ((text.drop p).drop (d + 3)).drop (d2 + 2)))) := by simp
    _ = (text.drop p).take d ++ (opener ++ (text.drop p).drop (d + 3)) := by rw [← h3]
    _ = (text.drop p).take d ++ (text.drop p).drop d := by rw [h1]
    _ = text.drop p := List.take_append_drop d _

/-- The fixer's block fold, characterized: starting from a buffer
`done ++ text.drop p` whose offset records the length difference
between the emitted prefix and the consumed prefix, folding the scan
of the remaining text yields the spec-side splice of the remaining
blocks and appends their change records. -/
theorem spliceFoldMain (text : Str) (na : Bool) :
    ∀ (n p : Nat) (done : Str) (cs0 : List FixChange),
      (text.drop p).length ≤ n →
      ∃ off : Int,
        (findBlocksAux p (text.drop p)).foldl (fixStep text na)
            ⟨done ++ text.drop p, (done.length : Int) - (p : Int), cs0⟩ =
          ⟨done ++ spliceOver text na (findBlocksAux p (text.drop p)) p, off,
            cs0 ++ changesOver text na (findBlocksAux p (text.drop p))⟩ := by
  intro n
  induction n with
  | zero =>
    intro p done cs0 hn
    have hs : text.drop p = [] := List.length_eq_zero.mp (Nat.le_zero.mp hn)
    have hb : findBlocksAux p (text.drop p) = [] := by rw [hs]; rfl
    refine ⟨(done.length : Int) - (p : Int), ?_⟩
    rw [hb]
    simp only [List.foldl_nil, spliceOver, changesOver, List.append_nil]
  | succ n ih =>
    intro p done cs0 hn
    cases ho : findSub opener (text.drop p) with
    | none =>
      have hb : findBlocksAux p (text.drop p) = [] := findBlocksAuxNone1 p _ ho
      refine ⟨(done.length : Int) - (p : Int), ?_⟩
      rw [hb]
      simp only [List.foldl_nil, spliceOver, changesOver, List.append_nil]
    | some d =>
      cases hc : findSub closer ((text.drop p).drop (d + 3)) with
      | none =>
        have hb : findBlocksAux p (text.drop p) = [] := findBlocksAuxNone2 p _ d ho hc
        refine ⟨(done.length : Int) - (p : Int), ?_⟩
        rw [hb]
        simp only [List.foldl_nil, spliceOver, changesOver, List.append_nil]
      | some d2 =>
        obtain ⟨hdecomp, horig, hrest, hlen, hinlen, hgaplen⟩ :=
          scanStepFacts text p d d2 ho hc
        have hb := findBlocksAuxEq p (text.drop p) d d2 ho hc
        rw [← hrest] at hb
        have hfuel : (text.drop (p + d + 3 + d2 + 2)).length ≤ n := by
          have e1 : (text.drop (p + d + 3 + d2 + 2)).length =
              text.length - (p + d + 3 + d2 + 2) := List.length_drop _ _
          have e2 : (text.drop p).length = text.length - p := List.length_drop _ _
          omega
        rw [hb, List.foldl_cons]
        cases hr : blockReplacement text na
            (p + d, p + d + 3 + d2 + 2, ((text.drop p).drop (d + 3)).take d2) with
        | none =>
          have hstep : fixStep text na
              ⟨done ++ text.drop p, (done.length : Int) - (p : Int), cs0⟩
              (p + d, p + d + 3 + d2 + 2, ((text.drop p).drop (d + 3)).take d2) =
              ⟨done ++ text.drop p, (done.length : Int) - (p : Int), cs0⟩ := by
            rw [fixStep, hr]
          rw [hstep]
          have hstart : (⟨done ++ text.drop p,
              (done.length : Int) - (p : Int), cs0⟩ : FixAcc) =
              ⟨(done ++ (text.drop p).take d ++
                  (opener ++ ((text.drop p).drop (d + 3)).take d2 ++ closer)) ++
                  text.drop (p + d + 3 + d2 + 2),
                (((done ++ (text.drop p).take d ++
                  (opener ++ ((text.drop p).drop (d + 3)).take d2 ++ closer)).length : Int) -
                  ((p + d + 3 + d2 + 2 : Nat) : Int)), cs0⟩ := by
            simp only [FixAcc.mk.injEq]
            refine ⟨?_, ?_, trivial⟩
            · conv_lhs => rw [← hdecomp]
              simp [List.append_assoc]
            · simp only [List.length_append, hinlen, hgaplen,
                show opener.length = 3 from rfl, show closer.length = 2 from rfl]
              push_cast
              omega
          rw [hstart]
          obtain ⟨off, hoff⟩ := ih (p + d + 3 + d2 + 2)
            (done ++ (text.drop p).take d ++
              (opener ++ ((text.drop p).drop (d + 3)).take d2 ++ closer)) cs0 hfuel
          refine ⟨off, ?_⟩
          rw [hoff]
          simp only [FixAcc.mk.injEq]
          refine ⟨?_, trivial, ?_⟩
          · rw [spliceOver]
            simp only [hr, Option.getD_none]
            rw [show p + d - p = d from by omega, horig]
            simp [List.append_assoc]
          · rw [changesOver]
            simp only [hr, List.nil_append]
        | some r =>
          have hstep : fixStep text na
              ⟨done ++ text.drop p, (done.length : Int) - (p : Int), cs0⟩
              (p + d, p + d + 3 + d2 + 2, ((text.drop p).drop (d + 3)).take d2) =
              ⟨done ++ (text.drop p).take d ++ r ++ text.drop (p + d + 3 + d2 + 2),
                (done.length : Int) - (p : Int) + r.length -
                  ((p + d + 3 + d2 + 2) - (p + d) : Nat),
                cs0 ++ [(countChar '\n' (text.take (p + d)) + 1,
                  blockPreview ((text.drop (p + d)).take
                    ((p + d + 3 + d2 + 2) - (p + d))),
                  blockPreview r)]⟩ := by
            rw [fixStep, hr]
            simp only [FixAcc.mk.injEq]
            refine ⟨?_, trivial, trivial⟩
            have ht1 : (((p + d : Nat) : Int) +
                ((done.length : Int) - (p : Int))).toNat = done.length + d := by
              omega
            have ht2 : (((p + d + 3 + d2 + 2 : Nat) : Int) +
                ((done.length : Int) - (p : Int))).toNat =
                done.length + (d + 3 + d2 + 2) := by
              omega
            rw [ht1, ht2, List.take_append d, List.drop_append (d + 3 + d2 + 2)]
            rw [show (text.drop p).drop (d + 3 + d2 + 2) =
              text.drop (p + d + 3 + d2 + 2) from by rw [List.drop_drop]; congr 1; omega]
          rw [hstep]
          have hstart : (⟨done ++ (text.drop p).take d ++ r ++
              text.drop (p + d + 3 + d2 + 2),
              (done.length : Int) - (p : Int) + r.length -
                ((p + d + 3 + d2 + 2) - (p + d) : Nat),
              cs0 ++ [(countChar '\n' (text.take (p + d)) + 1,
                blockPreview ((text.drop (p + d)).take
                  ((p + d + 3 + d2 + 2) - (p + d))),
                blockPreview r)]⟩ : FixAcc) =
              ⟨(done ++ (text.drop p).take d ++ r) ++
                  text.drop (p + d + 3 + d2 + 2),
                (((done ++ (text.drop p).take d ++ r).length : Int) -
                  ((p + d + 3 + d2 + 2 : Nat) : Int)),
                cs0 ++ [(countChar '\n' (text.take (p + d)) + 1,
                  blockPreview ((text.drop (p + d)).take
                    ((p + d + 3 + d2 + 2) - (p + d))),
                  blockPreview r)]⟩ := by
            simp only [FixAcc.mk.injEq]
            refine ⟨by simp [List.append_assoc], ?_, trivial⟩
            simp only [List.length_append, hgaplen]
            push_cast
            omega
          rw [hstart]
          obtain ⟨off, hoff⟩ := ih (p + d + 3 + d2 + 2)
            (done ++ (text.drop p).take d ++ r)
            (cs0 ++ [(countChar '\n' (text.take (p + d)) + 1,
              blockPreview ((text.drop (p + d)).take
                ((p + d + 3 + d2 + 2) - (p + d))),
              blockPreview r)]) hfuel
          refine ⟨off, ?_⟩
          rw [hoff]
          simp only [FixAcc.mk.injEq]
          refine ⟨?_, trivial, ?_⟩
          · rw [spliceOver]
            simp only [hr, Option.getD_some]
            rw [show p + d - p = d from by omega]
            simp [List.append_assoc]
          · rw [changesOver]
            simp only [hr]
            simp [List.append_assoc]

/-- A checker block step without inserted tags only records the
result. -/
theorem chkStepNone (text : Str) (acc : ChkAcc) (b : Nat × Nat × Str)
    (h : chkBlockReplacement text b = none) :
    chkStep text true acc b =
      ⟨acc.newText, acc.offset, acc.results ++ [blockResultFor text b]⟩ := by
  have h1 : insertLinesFor (blockResultFor text b).decl
      (blockResultFor text b).tags = [] := by
    by_contra hne
    simp [chkBlockReplacement, hne] at h
  simp [chkStep, h1]

/-- A checker block step with inserted tags splices the rebuilt block
at the offset-shifted span and records the result. -/
theorem chkStepSome (text : Str) (acc : ChkAcc) (s e : Nat) (inner : Str) (r : Str)
    (h : chkBlockReplacement text (s, e, inner) = some r) :
    chkStep text true acc (s, e, inner) =
      ⟨acc.newText.take ((s + acc.offset).toNat) ++ r ++
          acc.newText.drop ((e + acc.offset).toNat),
        acc.offset + r.length - (e - s : Nat),
        acc.results ++ [blockResultFor text (s, e, inner)]⟩ := by
  have h1 : insertLinesFor (blockResultFor text (s, e, inner)).decl
      (blockResultFor text (s, e, inner)).tags ≠ [] := by
    intro he
    simp [chkBlockReplacement, he] at h
  have h2 : joinLines (fixedBlockParts (leadingWsAt text s) inner
      (insertLinesFor (blockResultFor text (s, e, inner)).decl
        (blockResultFor text (s, e, inner)).tags)) = r := by
    have h' := h
    simp only [chkBlockReplacement, if_pos h1] at h'
    exact Option.some.inj h'
  simp [chkStep, h1, h2]

set_option maxHeartbeats 1000000 in
/-- The checker's block fold under `--fix`, characterized: starting
from a buffer `done ++ text.drop p` whose offset records the length
difference between the emitted prefix and the consumed prefix, folding
the scan of the remaining text yields the spec-side splice of the
remaining blocks and appends one result record per block. -/
theorem chkSpliceFoldMain (text : Str) :
    ∀ (n p : Nat) (done : Str) (rs0 : List BlockResult),
      (text.drop p).length ≤ n →
      ∃ off : Int,
        (findBlocksAux p (text.drop p)).foldl (chkStep text true)
            ⟨done ++ text.drop p, (done.length : Int) - (p : Int), rs0⟩ =
          ⟨done ++ chkSpliceOver text (findBlocksAux p (text.drop p)) p, off,
            rs0 ++ ((findBlocksAux p (text.drop p)).map (blockResultFor text))⟩ := by
  intro n
  induction n with
  | zero =>
    intro p done rs0 hn
    have hs : text.drop p = [] := List.length_eq_zero.mp (Nat.le_zero.mp hn)
    have hb : findBlocksAux p (text.drop p) = [] := by rw [hs]; rfl
    refine ⟨(done.length : Int) - (p : Int), ?_⟩
    rw [hb]
    simp only [List.foldl_nil, chkSpliceOver, List.map_nil, List.append_nil]
  | succ n ih =>
    intro p done rs0 hn
    cases ho : findSub opener (text.drop p) with
    | none =>
      have hb : findBlocksAux p (text.drop p) = [] := findBlocksAuxNone1 p _ ho
      refine ⟨(done.length : Int) - (p : Int), ?_⟩
      rw [hb]
      simp only [List.foldl_nil, chkSpliceOver, List.map_nil, List.append_nil]
    | some d =>
      cases hc : findSub closer ((text.drop p).drop (d + 3)) with
      | none =>
        have hb : findBlocksAux p (text.drop p) = [] := findBlocksAuxNone2 p _ d ho hc
        refine ⟨(done.length : Int) - (p : Int), ?_⟩
        rw [hb]
        simp only [List.foldl_nil, chkSpliceOver, List.map_nil, List.append_nil]
      | some d2 =>
        obtain ⟨hdecomp, horig, hrest, hlen, hinlen, hgaplen⟩ :=
          scanStepFacts text p d d2 ho hc
        have hb := findBlocksAuxEq p (text.drop p) d d2 ho hc
        rw [← hrest] at hb
        have hfuel : (text.drop (p + d + 3 + d2 + 2)).length ≤ n := by
          have e1 : (text.drop (p + d + 3 + d2 + 2)).length =
              text.length - (p + d + 3 + d2 + 2) := List.length_drop _ _
          have e2 : (text.drop p).length = text.length - p := List.length_drop _ _
          omega
        rw [hb, List.foldl_cons, List.map_cons]
        cases hr : chkBlockReplacement text
            (p + d, p + d + 3 + d2 + 2, ((text.drop p).drop (d + 3)).take d2) with
        | none =>
          rw [chkStepNone text _ _ hr]
          have hstart : (⟨done ++ text.drop p,
              (done.length : Int) - (p : Int),
              rs0 ++ [blockResultFor text (p + d, p + d + 3 + d2 + 2,
                ((text.drop p).drop (d + 3)).take d2)]⟩ : ChkAcc) =
              ⟨(done ++ (text.drop p).take d ++
                  (opener ++ ((text.drop p).drop (d + 3)).take d2 ++ closer)) ++
                  text.drop (p + d + 3 + d2 + 2),
                (((done ++ (text.drop p).take d ++
                  (opener ++ ((text.drop p).drop (d + 3)).take d2 ++ closer)).length : Int) -
                  ((p + d + 3 + d2 + 2 : Nat) : Int)),
                rs0 ++ [blockResultFor text (p + d, p + d + 3 + d2 + 2,
                  ((text.drop p).drop (d + 3)).take d2)]⟩ := by
            simp only [ChkAcc.mk.injEq]
            refine ⟨?_, ?_, trivial⟩
            · conv_lhs => rw [← hdecomp]
              simp [List.append_assoc]
            · simp only [List.length_append, hinlen, hgaplen,
                show opener.length = 3 from rfl, show closer.length = 2 from rfl]
              push_cast
              omega
          rw [hstart]
          obtain ⟨off, hoff⟩ := ih (p + d + 3 + d2 + 2)
            (done ++ (text.drop p).take d ++
              (opener ++ ((text.drop p).drop (d + 3)).take d2 ++ closer))
            (rs0 ++ [blockResultFor text (p + d, p + d + 3 + d2 + 2,
              ((text.drop p).drop (d + 3)).take d2)]) hfuel
          refine ⟨off, ?_⟩
          rw [hoff]
          simp only [ChkAcc.mk.injEq]
          refine ⟨?_, trivial, ?_⟩
          · rw [chkSpliceOver]
            simp only [hr, Option.getD_none]
            rw [show p + d - p = d from by omega, horig]
            simp [List.append_assoc]
          · simp [List.append_assoc]
        | some r =>
          have hstep : chkStep text true
              ⟨done ++ text.drop p, (done.length : Int) - (p : Int), rs0⟩
              (p + d, p + d + 3 + d2 + 2, ((text.drop p).drop (d + 3)).take d2) =
              ⟨done ++ (text.drop p).take d ++ r ++ text.drop (p + d + 3 + d2 + 2),
                (done.length : Int) - (p : Int) + r.length -
                  ((p + d + 3 + d2 + 2) - (p + d) : Nat),
                rs0 ++ [blockResultFor text (p + d, p + d + 3 + d2 + 2,
                  ((text.drop p).drop (d + 3)).take d2)]⟩ := by
            rw [chkStepSome text _ (p + d) (p + d + 3 + d2 + 2) _ r hr]
            simp only [ChkAcc.mk.injEq]
            refine ⟨?_, trivial, trivial⟩
            have ht1 : (((p + d : Nat) : Int) +
                ((done.length : Int) - (p : Int))).toNat = done.length + d := by
              omega
            have ht2 : (((p + d + 3 + d2 + 2 : Nat) : Int) +
                ((done.length : Int) - (p : Int))).toNat =
                done.length + (d + 3 + d2 + 2) := by
              omega
            rw [ht1, ht2, List.take_append d, List.drop_append (d + 3 + d2 + 2)]
            have hdd : (text.drop p).drop (d + 3 + d2 + 2) =
                text.drop (p + d + 3 + d2 + 2) := by
              rw [List.drop_drop]
              have he : p + (d + 3 + d2 + 2) = p + d + 3 + d2 + 2 := by omega
              rw [he]
            rw [hdd]
          rw [hstep]
          have hstart : (⟨done ++ (text.drop p).take d ++ r ++
              text.drop (p + d + 3 + d2 + 2),
              (done.length : Int) - (p : Int) + r.length -
                ((p + d + 3 + d2 + 2) - (p + d) : Nat),
              rs0 ++ [blockResultFor text (p + d, p + d + 3 + d2 + 2,
                ((text.drop p).drop (d + 3)).take d2)]⟩ : ChkAcc) =
              ⟨(done ++ (text.drop p).take d ++ r) ++
                  text.drop (p + d + 3 + d2 + 2),
                (((done ++ (text.drop p).take d ++ r).length : Int) -
                  ((p + d + 3 + d2 + 2 : Nat) : Int)),
                rs0 ++ [blockResultFor text (p + d, p + d + 3 + d2 + 2,
                  ((text.drop p).drop (d + 3)).take d2)]⟩ := by
            simp only [ChkAcc.mk.injEq]
            refine ⟨by simp [List.append_assoc], ?_, trivial⟩
            simp only [List.length_append, hgaplen]
            push_cast
            omega
          rw [hstart]
          obtain ⟨off, hoff⟩ := ih (p + d + 3 + d2 + 2)
            (done ++ (text.drop p).take d ++ r)
            (rs0 ++ [blockResultFor text (p + d, p + d + 3 + d2 + 2,
              ((text.drop p).drop (d + 3)).take d2)]) hfuel
          refine ⟨off, ?_⟩
          rw [hoff]
          simp only [ChkAcc.mk.injEq]
          refine ⟨?_, trivial, ?_⟩
          · rw [chkSpliceOver]
            simp only [hr, Option.getD_some]
            rw [show p + d - p = d from by omega]
            simp [List.append_assoc]
          · simp [List.append_assoc]

/-- One change record is emitted per block with a replacement. -/
theorem changesOverLength (text : Str) (na : Bool) :
    ∀ bs : List (Nat × Nat × Str),
      (changesOver text na bs).length =
        (bs.filter (fun b => (blockReplacement text na b).isSome)).length
  | [] => rfl
  | b :: bs => by
    rw [changesOver, List.filter_cons]
    cases h : blockReplacement text na b <;>
      simp [h, changesOverLength text na bs]

/-- Re-scanning the spliced text finds exactly one block per block of
the original scan, shifted by the cumulative length differences and
carrying the spliced-in inner text: the gaps contain no `/**` (the
scan reported the leftmost one) and the emitted segments are
`/** mid */` with no early `*/` in `mid`, so the re-scan steps through
the segments one by one. -/
theorem rescanMain (text : Str) (na : Bool) :
    ∀ (n p q : Nat), (text.drop p).length ≤ n →
      findBlocksAux q (spliceOver text na (findBlocksAux p (text.drop p)) p) =
        rescanOver text na (findBlocksAux p (text.drop p)) p q := by
  intro n
  induction n with
  | zero =>
    intro p q hn
    have hs : text.drop p = [] := List.length_eq_zero.mp (Nat.le_zero.mp hn)
    have hb : findBlocksAux p (text.drop p) = [] := by rw [hs]; rfl
    rw [hb, show spliceOver text na [] p = text.drop p from rfl, hs]
    rfl
  | succ n ih =>
    intro p q hn
    cases ho : findSub opener (text.drop p) with
    | none =>
      have hb : findBlocksAux p (text.drop p) = [] := findBlocksAuxNone1 p _ ho
      rw [hb, show spliceOver text na [] p = text.drop p from rfl]
      rw [findBlocksAuxNone1 q _ ho]
      rfl
    | some d =>
      cases hc : findSub closer ((text.drop p).drop (d + 3)) with
      | none =>
        have hb : findBlocksAux p (text.drop p) = [] := findBlocksAuxNone2 p _ d ho hc
        rw [hb, show spliceOver text na [] p = text.drop p from rfl]
        rw [findBlocksAuxNone2 q _ d ho hc]
        rfl
      | some d2 =>
        obtain ⟨hdecomp, horig, hrest, hlen, hinlen, hgaplen⟩ :=
          scanStepFacts text p d d2 ho hc
        have hb := findBlocksAuxEq p (text.drop p) d d2 ho hc
        rw [← hrest] at hb
        have hfuel : (text.drop (p + d + 3 + d2 + 2)).length ≤ n := by
          have e1 : (text.drop (p + d + 3 + d2 + 2)).length =
              text.length - (p + d + 3 + d2 + 2) := List.length_drop _ _
          have e2 : (text.drop p).length = text.length - p := List.length_drop _ _
          omega
        have hgap : noSub opener ((text.drop p).take d) :=
          noSubTake opener (text.drop p) d (by decide) (findSubSomeMin _ _ _ ho)
        have hinner : noSub closer (((text.drop p).drop (d + 3)).take d2) :=
          noSubTake closer ((text.drop p).drop (d + 3)) d2 (by decide)
            (findSubSomeMin _ _ _ hc)
        have hshape : ∃ mid,
            (blockReplacement text na
                (p + d, p + d + 3 + d2 + 2,
                  ((text.drop p).drop (d + 3)).take d2)).getD
              ((text.drop (p + d)).take ((p + d + 3 + d2 + 2) - (p + d))) =
              opener ++ mid ++ closer ∧ noSub closer mid := by
          cases hr : blockReplacement text na
              (p + d, p + d + 3 + d2 + 2, ((text.drop p).drop (d + 3)).take d2) with
          | none =>
            exact ⟨((text.drop p).drop (d + 3)).take d2,
              by rw [Option.getD_none, horig], hinner⟩
          | some r0 =>
            obtain ⟨mid, hmid, hcc⟩ :=
              blockReplacementShape text na
                (p + d, p + d + 3 + d2 + 2, ((text.drop p).drop (d + 3)).take d2)
                r0 hinner hr
            exact ⟨mid, by rw [Option.getD_some, hmid], hcc⟩
        obtain ⟨mid, hmid, hcc⟩ := hshape
        rw [hb]
        rw [spliceOver, rescanOver]
        rw [show p + d - p = d from by omega, hmid]
        have hfull : (text.drop p).take d ++ (opener ++ mid ++ closer) ++
            spliceOver text na
              (findBlocksAux (p + d + 3 + d2 + 2) (text.drop (p + d + 3 + d2 + 2)))
              (p + d + 3 + d2 + 2) =
            (text.drop p).take d ++ opener ++
              (mid ++ closer ++
                spliceOver text na
                  (findBlocksAux (p + d + 3 + d2 + 2)
                    (text.drop (p + d + 3 + d2 + 2)))
                  (p + d + 3 + d2 + 2)) := by
          simp [List.append_assoc]
        rw [hfull]
        have ho' := findSubAppendOpener ((text.drop p).take d)
          (mid ++ closer ++
            spliceOver text na
              (findBlocksAux (p + d + 3 + d2 + 2) (text.drop (p + d + 3 + d2 + 2)))
              (p + d + 3 + d2 + 2)) hgap
        rw [hgaplen] at ho'
        have hdl : ((text.drop p).take d ++ opener).length = d + 3 := by
          rw [List.length_append, hgaplen]
          rfl
        have hdrop3 : ((text.drop p).take d ++ opener ++
            (mid ++ closer ++
              spliceOver text na
                (findBlocksAux (p + d + 3 + d2 + 2) (text.drop (p + d + 3 + d2 + 2)))
                (p + d + 3 + d2 + 2))).drop (d + 3) =
            mid ++ closer ++
              spliceOver text na
                (findBlocksAux (p + d + 3 + d2 + 2) (text.drop (p + d + 3 + d2 + 2)))
                (p + d + 3 + d2 + 2) := List.drop_left' hdl
        have hc' : findSub closer (((text.drop p).take d ++ opener ++
            (mid ++ closer ++
              spliceOver text na
                (findBlocksAux (p + d + 3 + d2 + 2) (text.drop (p + d + 3 + d2 + 2)))
                (p + d + 3 + d2 + 2))).drop (d + 3)) = some mid.length := by
          rw [hdrop3]
          exact findSubAppendCloser mid _ hcc
        have hb' := findBlocksAuxEq q _ d mid.length ho' hc'
        rw [hb']
        congr 1
        · rw [hdrop3]
          rw [show mid ++ closer ++
              spliceOver text na
                (findBlocksAux (p + d + 3 + d2 + 2) (text.drop (p + d + 3 + d2 + 2)))
                (p + d + 3 + d2 + 2) =
              mid ++ (closer ++
                spliceOver text na
                  (findBlocksAux (p + d + 3 + d2 + 2) (text.drop (p + d + 3 + d2 + 2)))
                  (p + d + 3 + d2 + 2)) from by simp]
          rw [List.take_left' rfl]
          rw [innerOfBlockEq]
          simp only [Prod.mk.injEq]
          refine ⟨trivial, ?_, trivial⟩
          rw [show (opener ++ mid ++ closer).length = mid.length + 5 from by
            simp only [List.length_append, show opener.length = 3 from rfl,
              show closer.length = 2 from rfl]
            omega]
          omega
        · rw [hdrop3]
          rw [show (mid ++ closer ++
              spliceOver text na
                (findBlocksAux (p + d + 3 + d2 + 2) (text.drop (p + d + 3 + d2 + 2)))
                (p + d + 3 + d2 + 2)).drop (mid.length + 2) =
              spliceOver text na
                (findBlocksAux (p + d + 3 + d2 + 2) (text.drop (p + d + 3 + d2 + 2)))
                (p + d + 3 + d2 + 2) from
            List.drop_left' (by rw [List.length_append,
              show closer.length = 2 from rfl])]
          rw [ih (p + d + 3 + d2 + 2) (q + d + 3 + mid.length + 2) hfuel]
          congr 1
          rw [show (opener ++ mid ++ closer).length = mid.length + 5 from by
            simp only [List.length_append, show opener.length = 3 from rfl,
              show closer.length = 2 from rfl]
            omega]
          omega

/-! ### Claim theorems -/

/-- Claim C5 (corrected): both tools apply all replacements of a file
against one running buffer, shifting each insertion point by the
cumulative sum of (replacement length − original length) of the
earlier replacements.  The indent fixer's final text equals the plain
concatenation `spliceOver` of the untouched gaps and the replaced or
original block texts (non-replaced regions byte-exact, each
replacement at its intended position), its change list has exactly one
record per replaced block, and re-scanning its final text with the
extractor yields `rescanOver`: one block per original block at the
shifted coordinates, each carrying the spliced-in inner content.  The
scaladoc checker's `--fix` pass obeys the same splicing discipline:
its written-back text equals the plain concatenation `chkSpliceOver`
of the untouched gaps and the rebuilt or original block texts, with
one result record per block.  The claim's re-scan clause, however,
does not extend to the checker: an inserted tag line may itself
contain `*/` (see the counterexample), so re-scanning need not recover
the inserted content there. -/
theorem claim5_splicing_discipline (text : Str) (na : Bool) :
    (analyzeAndFixText text na).1 = spliceOver text na (findBlocks text) 0 ∧
    (analyzeAndFixText text na).2 = changesOver text na (findBlocks text) ∧
    (analyzeAndFixText text na).2.length =
      ((findBlocks text).filter
        (fun b => (blockReplacement text na b).isSome)).length ∧
    findBlocks (analyzeAndFixText text na).1 =
      rescanOver text na (findBlocks text) 0 0 ∧
    (analyzeFileChecker text true).1 = chkSpliceOver text (findBlocks text) 0 ∧
    (analyzeFileChecker text true).2 =
      (findBlocks text).map (blockResultFor text) := by
  obtain ⟨off, h⟩ := spliceFoldMain text na text.length 0 [] [] (by simp)
  rw [List.drop_zero] at h
  rw [show findBlocksAux 0 text = findBlocks text from rfl] at h
  norm_num at h
  have c1 : analyzeAndFixText text na =
      (spliceOver text na (findBlocks text) 0,
        changesOver text na (findBlocks text)) := by
    simp only [analyzeAndFixText]
    rw [h]
  obtain ⟨off2, h2⟩ := chkSpliceFoldMain text text.length 0 [] [] (by simp)
  rw [List.drop_zero] at h2
  rw [show findBlocksAux 0 text = findBlocks text from rfl] at h2
  norm_num at h2
  have c2 : analyzeFileChecker text true =
      (chkSpliceOver text (findBlocks text) 0,
        (findBlocks text).map (blockResultFor text)) := by
    simp only [analyzeFileChecker]
    rw [h2]
  have h4 := rescanMain text na text.length 0 0 (by simp)
  rw [List.drop_zero] at h4
  refine ⟨by rw [c1], by rw [c1], ?_, ?_, by rw [c2], by rw [c2]⟩
  · rw [c1]
    exact changesOverLength text na (findBlocks text)
  · rw [c1]
    exact h4

/-- Claim C5 counterexample (checker re-scan clause): on
`/** doc */\ndef f(*/: Int): Int = 1` the checker parses the value
parameter name `*/:`, so under `--fix` it inserts the tag line
`@param */: TODO FILL IN PARAM` into the rebuilt block.  The splice
itself lands the rebuilt block exactly at the original block's span,
but re-scanning the written-back text truncates the block at the `*/`
inside the inserted line: the single re-scanned block carries the
inner text `\n * doc\n * @param ` instead of the inserted content. -/
theorem claim5_checker_rescan_counterexample :
    (blockResultFor (lit ("/** doc */\ndef f(*/: Int): Int = 1"))
        (0, 10, lit (" doc "))).decl.params = [lit ("*/:")] ∧
    insertLinesFor
        (blockResultFor (lit ("/** doc */\ndef f(*/: Int): Int = 1"))
          (0, 10, lit (" doc "))).decl
        (blockResultFor (lit ("/** doc */\ndef f(*/: Int): Int = 1"))
          (0, 10, lit (" doc "))).tags =
      [lit ("@param */: TODO FILL IN PARAM"), lit ("@return TODO FILL IN RETURN")] ∧
    findBlocks (lit ("/** doc */\ndef f(*/: Int): Int = 1")) =
      [(0, 10, lit (" doc "))] ∧
    (analyzeFileChecker (lit ("/** doc */\ndef f(*/: Int): Int = 1")) true).1 =
      lit ("/**\n * doc\n * @param */: TODO FILL IN PARAM\n * @return TODO FILL IN RETURN\n */\ndef f(*/: Int): Int = 1") ∧
    findBlocks
        (analyzeFileChecker (lit ("/** doc */\ndef f(*/: Int): Int = 1")) true).1 =
      [(0, 23, lit ("\n * doc\n * @param "))] ∧
    containsSub (lit ("TODO")) (lit ("\n * doc\n * @param ")) = false := by
  refine ⟨by decide, by decide, by decide, by decide, by decide, by decide⟩

/-- Claim C1 (code bug): for the well-formed input
`/** doc */\ndef foo[T](x: T): T = x` the declaration locator and
parser return kind `def`, name `foo`, type parameter `T` and value
parameter `x` as the claim states, but the extracted return type is
`T): T` rather than the annotated `T`: the source searches
`:\s*([^=\{\n]+)` over the whole chunk instead of the text after the
parameter list (its `after_params` variable is computed and never
used), so the first colon found is the one inside `(x: T)`. -/
theorem claim1_return_extraction_bug :
    findBlocks (lit ("/** doc */\ndef foo[T](x: T): T = x")) = [(0, 10, lit (" doc "))] ∧
    getDeclarationAfter (lit ("/** doc */\ndef foo[T](x: T): T = x")) 10 =
      (lit ("def foo[T](x: T): T = x"), 1) ∧
    parseDeclaration (lit ("def foo[T](x: T): T = x")) =
      { kind := lit ("def"), name := lit ("foo"), tparams := [lit ("T")],
        params := [lit ("x")], ret := some (lit ("T): T")) } ∧
    (parseDeclaration (lit ("def foo[T](x: T): T = x"))).ret ≠ some (lit ("T")) := by
  refine ⟨by decide, by decide, by decide, by decide⟩

/-- Claim C3 (code bug): indentation normalization is not idempotent.
Normalizing `/**\n  * foo\n*/` yields `/**\n *\n * foo\n */`, and a
second run changes that output again (the loop re-emits the empty
first inner line and the closing line's whitespace prefix as content
lines, growing the block), returning a non-empty change list. -/
theorem claim3_not_idempotent :
    analyzeAndFixText (lit ("/**\n  * foo\n*/")) false =
      (lit ("/**\n *\n * foo\n */"),
        [(1, lit ("/**"), lit ("/**"))]) ∧
    (analyzeAndFixText (lit ("/**\n *\n * foo\n */")) false).1 =
      lit ("/**\n *\n *\n * foo\n * \n */") ∧
    analyzeAndFixText (lit ("/**\n *\n * foo\n */")) false ≠
      (lit ("/**\n *\n * foo\n */"), []) := by
  refine ⟨by decide, by decide, by decide⟩

/-- Claim C7: visibility classification distinguishes bracketed from
bare `protected`: an undocumented `protected[pkg] def baz: Int = 1` is
classified package-private, excluded from the documentation check and
not reported, while the bare `protected def baz: Int = 1` is
classified protected, checked, and flagged as undocumented. -/
theorem claim7_protected_bracket_classification :
    getVisibility (lit ("protected[pkg] def baz: Int = 1")) = lit ("package-private") ∧
    shouldCheckDocs (getVisibility (lit ("protected[pkg] def baz: Int = 1"))) = false ∧
    analyzeDocsFile [lit ("protected[pkg] def baz: Int = 1")] = [] ∧
    getVisibility (lit ("protected def baz: Int = 1")) = lit ("protected") ∧
    shouldCheckDocs (getVisibility (lit ("protected def baz: Int = 1"))) = true ∧
    analyzeDocsFile [lit ("protected def baz: Int = 1")] =
      [{ line := 1, kind := lit ("def"), name := lit ("baz"),
         content := lit ("protected def baz: Int = 1") }] := by
  refine ⟨by decide, by decide, by decide, by decide, by decide, by decide⟩

/-- Claim C8: `parse_declaration` is total (every embedded function is
a total Lean function) and degrades to the `unknown` record with empty
fields whenever neither the first line nor the whole chunk matches the
declaration-start pattern; `extract_param_names_from_parens` is
likewise total on any input. -/
theorem claim8_parse_declaration_total (chunk : Str)
    (h1 : declStartSearch (firstLineOfChunk chunk) = none)
    (h2 : declStartSearch chunk = none) :
    parseDeclaration chunk = unknownDecl := by
  unfold parseDeclaration
  rw [h1, h2]
  rfl

/-- Witness for claim C8 at the malformed chunk `hello world` and the
empty chunk. -/
theorem claim8_parse_declaration_total_witness :
    parseDeclaration (lit ("hello world")) = unknownDecl ∧
    parseDeclaration [] = unknownDecl :=
  ⟨claim8_parse_declaration_total (lit ("hello world")) (by decide) (by decide),
   claim8_parse_declaration_total [] (by decide) (by decide)⟩

/-- Claim C10: the checker's report is independent of the `fix` flag:
for every file text the result list (line, parsed declaration,
extracted tags, issues, excerpt per block) is the same whether `fix`
is true or false, because every analysis step reads the original
text only. -/
theorem claim10_report_fix_independent (text : Str) (fix : Bool) :
    (analyzeFileChecker text fix).2 = (analyzeFileChecker text false).2 := by
  simp [analyzeFileChecker, chkFoldResults]

/-- Claim C9 (corrected), counterexample: the checker does not exit 0
after a successful `--fix` run.  On the file `/** doc\n */\ndef f: Int = 1`
a `--fix` run repairs the single issue (re-analyzing the written-back
text finds no issues, so no unresolved issue remains), yet the exit
code is 1, because the checker's exit code counts the issues found
during the run regardless of `--fix`. -/
theorem claim9_checker_fix_exit_counterexample :
    checkerMainExit true [lit ("/** doc\n */\ndef f: Int = 1")] true = 1 ∧
    checkerTotalIssues
      [(analyzeFileChecker (lit ("/** doc\n */\ndef f: Int = 1")) true).1] false = 0 := by
  refine ⟨by decide, by decide⟩

/-- Claim C9 (amended): both tools exit 2 when the target folder does
not exist and 1 when issues are found in dry-run mode; the indent
fixer exits 0 under `--fix`; but the checker's exit code ignores
`--fix` — it is 0 exactly when no issue was found during the run, so a
successful `--fix` run that repaired issues still exits 1. -/
theorem claim9_exit_codes_amended (files : List Str) (fix na : Bool) :
    checkerMainExit false files fix = 2 ∧
    fixerMainExit false files fix na = 2 ∧
    fixerMainExit true files true na = 0 ∧
    checkerMainExit true files fix =
      (if checkerTotalIssues files false = 0 then 0 else 1) ∧
    fixerMainExit true files false na =
      (if files.all (fun f => (analyzeAndFixText f na).2.isEmpty) then 0 else 1) := by
  refine ⟨rfl, rfl, rfl, ?_, ?_⟩
  · simp [checkerMainExit, checkerTotalIssuesFixIrrelevant]
  · simp only [fixerMainExit, Bool.not_true, Bool.not_false, Bool.true_and,
      Bool.false_and, if_false]
    by_cases h : files.all (fun f => (analyzeAndFixText f na).2.isEmpty)
    · have : files.any (fun f => !(analyzeAndFixText f na).2.isEmpty) = false := by
        simp only [List.any_eq_false]
        intro f hf
        simp only [List.all_eq_true] at h
        simp [h f hf]
      simp [this, h]
    · have hb : files.all (fun f => (analyzeAndFixText f na).2.isEmpty) = false := by
        simpa using h
      have : files.any (fun f => !(analyzeAndFixText f na).2.isEmpty) = true := by
        simp only [List.all_eq_true] at h
        push_neg at h
        obtain ⟨f, hf, hne⟩ := h
        simp only [List.any_eq_true]
        exact ⟨f, hf, by simpa using hne⟩
      simp [this, hb]

/-- Claim C4: for a documented `def` whose extracted return type is
exactly `Unit`, the reconciliation never emits the missing-`@return`
issue, and emits the unexpected-`@return` issue exactly when the block
carries a `@return` tag; when no return type was extracted, neither
return issue is emitted. -/
theorem claim4_unit_return_policy (decl : Decl) (tags : Tags)
    (hk : decl.kind = lit ("def")) :
    (decl.ret = some (lit ("Unit")) →
      lit ("Missing @return for non-Unit return type") ∉ issuesFor decl tags ∧
      (lit ("@return present but return type is Unit") ∈ issuesFor decl tags ↔
        tags.ret ≠ [])) ∧
    (decl.ret = none →
      lit ("Missing @return for non-Unit return type") ∉ issuesFor decl tags ∧
      lit ("@return present but return type is Unit") ∉ issuesFor decl tags) := by
  have h11 : ∀ s, lit ("Missing @tparam for: ") ++ s ≠
      lit ("Missing @return for non-Unit return type") :=
    appendNeOfTakeNe _ _ 10 (by decide) (by decide)
  have h12 : ∀ s, lit ("Missing @tparam for: ") ++ s ≠
      lit ("@return present but return type is Unit") :=
    appendNeOfTakeNe _ _ 1 (by decide) (by decide)
  have h21 : ∀ s, lit ("@tparam refers to unknown type params: ") ++ s ≠
      lit ("Missing @return for non-Unit return type") :=
    appendNeOfTakeNe _ _ 1 (by decide) (by decide)
  have h22 : ∀ s, lit ("@tparam refers to unknown type params: ") ++ s ≠
      lit ("@return present but return type is Unit") :=
    appendNeOfTakeNe _ _ 2 (by decide) (by decide)
  have h31 : ∀ s, lit ("Missing @param for: ") ++ s ≠
      lit ("Missing @return for non-Unit return type") :=
    appendNeOfTakeNe _ _ 10 (by decide) (by decide)
  have h32 : ∀ s, lit ("Missing @param for: ") ++ s ≠
      lit ("@return present but return type is Unit") :=
    appendNeOfTakeNe _ _ 1 (by decide) (by decide)
  have h41 : ∀ s, lit ("@param refers to unknown params: ") ++ s ≠
      lit ("Missing @return for non-Unit return type") :=
    appendNeOfTakeNe _ _ 1 (by decide) (by decide)
  have h42 : ∀ s, lit ("@param refers to unknown params: ") ++ s ≠
      lit ("@return present but return type is Unit") :=
    appendNeOfTakeNe _ _ 2 (by decide) (by decide)
  have hmem : ∀ x, x ∈ issuesFor decl tags →
      x ∈ returnIssues decl tags ∨
        (x ≠ lit ("Missing @return for non-Unit return type") ∧
         x ≠ lit ("@return present but return type is Unit")) := by
    intro x hx
    simp only [issuesFor, List.mem_append] at hx
    rcases hx with ((((hx | hx) | hx) | hx) | hx)
    · exact Or.inr ⟨fun he => h11 _ (memIteSingleton hx ▸ he),
        fun he => h12 _ (memIteSingleton hx ▸ he)⟩
    · exact Or.inr ⟨fun he => h21 _ (memIteSingleton hx ▸ he),
        fun he => h22 _ (memIteSingleton hx ▸ he)⟩
    · exact Or.inr ⟨fun he => h31 _ (memIteSingleton hx ▸ he),
        fun he => h32 _ (memIteSingleton hx ▸ he)⟩
    · exact Or.inr ⟨fun he => h41 _ (memIteSingleton hx ▸ he),
        fun he => h42 _ (memIteSingleton hx ▸ he)⟩
    · exact Or.inl hx
  have hsub : ∀ x, x ∈ returnIssues decl tags → x ∈ issuesFor decl tags := by
    intro x hx
    simp only [issuesFor, List.mem_append]
    exact Or.inr hx
  constructor
  · intro hret
    constructor
    · intro hin
      rcases hmem _ hin with hin' | ⟨hne, _⟩
      · cases hd : documentedReturn tags
        · rw [returnIssues, hk, hret, hd] at hin'
          exact absurd hin' (by decide)
        · rw [returnIssues, hk, hret, hd] at hin'
          exact absurd hin' (by decide)
      · exact hne rfl
    · constructor
      · intro hin
        intro hempty
        have hd : documentedReturn tags = false := by
          simp [documentedReturn, hempty]
        rcases hmem _ hin with hin' | ⟨_, hne⟩
        · rw [returnIssues, hk, hret, hd] at hin'
          exact absurd hin' (by decide)
        · exact hne rfl
      · intro hne
        have hd : documentedReturn tags = true := by
          simp only [documentedReturn]
          cases hret2 : tags.ret with
          | nil => exact absurd hret2 hne
          | cons a l => simp
        apply hsub
        rw [returnIssues, hk, hret, hd]
        decide
  · intro hret
    constructor
    · intro hin
      rcases hmem _ hin with hin' | ⟨hne, _⟩
      · rw [returnIssues, hk, hret] at hin'
        simp at hin'
      · exact hne rfl
    · intro hin
      rcases hmem _ hin with hin' | ⟨_, hne⟩
      · rw [returnIssues, hk, hret] at hin'
        simp at hin'
      · exact hne rfl

/-- Witness for claim C4: a `def` returning `Unit` documented with a
`@return` tag gets exactly the unexpected-`@return` verdict, and with
no extracted return type no return issue at all. -/
theorem claim4_unit_return_policy_witness :
    (lit ("Missing @return for non-Unit return type") ∉
      issuesFor { kind := lit ("def"), name := lit ("f"), tparams := [],
                  params := [], ret := some (lit ("Unit")) }
        { param := [], tparam := [], ret := [[]] } ∧
     (lit ("@return present but return type is Unit") ∈
        issuesFor { kind := lit ("def"), name := lit ("f"), tparams := [],
                    params := [], ret := some (lit ("Unit")) }
          { param := [], tparam := [], ret := [[]] } ↔
       ([[]] : List Str) ≠ [])) := by
  have h := (claim4_unit_return_policy
    { kind := lit ("def"), name := lit ("f"), tparams := [],
      params := [], ret := some (lit ("Unit")) }
    { param := [], tparam := [], ret := [[]] } (by decide)).1 (by decide)
  exact h

/-- Claim C2: when every multi-line block of a text already has the
normalized indentation (its star-line prefixes all equal the leading
whitespace of the opener's line, with at least one star line), the
indentation rewriter without `normalize_all` returns the input text
byte-identically with an empty change list (single-line blocks are
skipped by design in this mode). -/
theorem claim2_roundtrip_normalized (text : Str)
    (h : ∀ b ∈ findBlocks text,
      ((text.drop b.1).take (b.2.1 - b.1)).contains '\n' = true →
        starPres (splitLines b.2.2) ≠ [] ∧
        ∀ p ∈ starPres (splitLines b.2.2), p = leadingWsAt text b.1) :
    analyzeAndFixText text false = (text, []) := by
  unfold analyzeAndFixText
  rw [fixFoldSkipsAll]
  intro b hb
  simp only [blockReplacement]
  by_cases hnl : ((text.drop b.1).take (b.2.1 - b.1)).contains '\n' = true
  · obtain ⟨hne, hall⟩ := h b hb hnl
    have hemp : (starPres (splitLines b.2.2)).isEmpty = false := by
      cases hp : starPres (splitLines b.2.2) with
      | nil => exact absurd hp hne
      | cons a l => simp
    have hany : (starPres (splitLines b.2.2)).any
        (fun p => decide (p ≠ leadingWsAt text b.1)) = false := by
      simp only [List.any_eq_false]
      intro p hp
      simp [hall p hp]
    rw [hnl, hemp, hany]
    rfl
  · have hnl' : ((text.drop b.1).take (b.2.1 - b.1)).contains '\n' = false := by
      simpa using hnl
    rw [hnl']
    rfl

/-- Witness for claim C2: a text whose single block is multi-line
with star prefixes equal to the opener's column. -/
theorem claim2_roundtrip_normalized_witness :
    analyzeAndFixText (lit ("val x = 1\n/**\n* a\n*/\nval y = 2")) false =
      (lit ("val x = 1\n/**\n* a\n*/\nval y = 2"), []) :=
  claim2_roundtrip_normalized (lit ("val x = 1\n/**\n* a\n*/\nval y = 2")) (by decide)

/-- Claim C6: a declaration nested under a private or package-private
container is never reported: whenever the visibility stack (as updated
for the current line) contains a private or package-private frame, the
scan step appends nothing to the undocumented list; in particular for
`private class Foo { def bar: Int = 1 }` neither `Foo` nor `bar` is
reported. -/
theorem claim6_private_container_suppression :
    (∀ (lines : List Str) (i : Nat) (st : DocsState),
      isInPrivateContainer (updateForLine st.stack (lines.getD i [])) = true →
      (docsStep lines i st).undoc = st.undoc) ∧
    analyzeDocsFile [lit ("private class Foo \x7b def bar: Int = 1 \x7d")] = [] := by
  constructor
  · intro lines i st h
    have h2 : ∀ v : Str, isInPrivateContainer
        ((indentOf (lines.getD i []), v) ::
          updateForLine st.stack (lines.getD i [])) = true := by
      intro v
      simp only [isInPrivateContainer, List.any_cons]
      rw [isInPrivateContainer] at h
      rw [h]
      simp
    simp only [docsStep]
    repeat' split
    all_goals first
      | rfl
      | (exfalso; simp_all [h2])
  · decide

/-- Witness for claim C6's invariant: a public field line under a
private frame on the stack appends nothing. -/
theorem claim6_private_container_suppression_witness :
    (docsStep [lit ("  val x: Int = 1")] 0
      { inML := false, stack := [(0, lit ("private"))], braceDepth := 0,
        inMethodBody := false, undoc := [] }).undoc = [] :=
  claim6_private_container_suppression.1 [lit ("  val x: Int = 1")] 0
    { inML := false, stack := [(0, lit ("private"))], braceDepth := 0,
      inMethodBody := false, undoc := [] } (by decide)

end ScaladocTools







